import Mathlib

/-!
Verification of the Memory & Prompt Pipeline of FastAPIAdventureInAI.

Python text is modelled as `List Char`; the model tokenizer as an abstract
count function `List Char → Nat`; fallible code as `Option`/`Except`.
Each definition is a shallow embedding of the named source function.
-/

set_option maxHeartbeats 1000000
set_option maxRecDepth 100000

/-- Convert a Lean string literal to the `List Char` text representation. -/
def lit (s : String) : List Char := s.toList

/-- ASCII whitespace recognised by Python `str.strip` / `\s`. -/
def isPySpace (c : Char) : Bool :=
  c = ' ' || c = '\t' || c = '\n' || c = '\r' || c = '\x0b' || c = '\x0c'

/-- Python `str.lstrip()`. -/
def pyLStrip (s : List Char) : List Char := s.dropWhile isPySpace

/-- Python `str.rstrip()`. -/
def pyRStrip (s : List Char) : List Char := (s.reverse.dropWhile isPySpace).reverse

/-- Python `str.strip()`. -/
def pyStrip (s : List Char) : List Char := pyRStrip (pyLStrip s)

/-- Python `needle in haystack` substring test. -/
def occursIn (pat : List Char) : List Char → Bool
  | [] => pat.isPrefixOf []
  | c :: rest => pat.isPrefixOf (c :: rest) || occursIn pat rest

/-- The text after the first occurrence of `pat`, if `pat` occurs. -/
def afterFirst (pat : List Char) : List Char → Option (List Char)
  | [] => if pat.isPrefixOf [] then some [] else none
  | c :: rest =>
    if pat.isPrefixOf (c :: rest) then some ((c :: rest).drop pat.length)
    else afterFirst pat rest

theorem afterFirst_length {pat : List Char} (hp : pat ≠ []) :
    ∀ {s r : List Char}, afterFirst pat s = some r → r.length < s.length := by
  intro s
  induction s with
  | nil =>
    intro r h
    cases pat with
    | nil => exact absurd rfl hp
    | cons p ps => simp [afterFirst, List.isPrefixOf] at h
  | cons c rest ih =>
    intro r h
    simp only [afterFirst] at h
    split at h
    · rename_i hpre
      cases h
      have hlen : 1 ≤ pat.length := by
        cases pat with
        | nil => exact absurd rfl hp
        | cons _ _ => simp
      simp only [List.length_drop, List.length_cons]
      omega
    · have := ih h
      simp only [List.length_cons]
      omega

/-- Fuelled worker for `lastAfter`; each step on a nonempty pattern strictly
shortens the text, so `length + 1` fuel is exact. -/
def lastAfterF (pat : List Char) : Nat → List Char → List Char
  | 0, s => s
  | n + 1, s =>
    if pat = [] then s
    else
      match afterFirst pat s with
      | none => s
      | some r => lastAfterF pat n r

/-- Python `text.split(pat)[-1]`: the part after the last occurrence of `pat`
(`text` itself when `pat` does not occur). -/
def lastAfter (pat : List Char) (s : List Char) : List Char :=
  lastAfterF pat (s.length + 1) s

/-! ## Prompt assembler (`ai/services/ai_api_service.py`, `flatten_json_prompt`) -/

/-- Per-user AI settings dictionary (`get_user_ai_settings`); only the keys the
embedded functions read. `SAFE_PROMPT_LIMIT` keeps Python int semantics. -/
structure Settings where
  SAFE_PROMPT_LIMIT : Int := 3900
  MAX_TOKENIZED_HISTORY_BLOCK : Nat := 4
  RECENT_MEMORY_LIMIT : Nat := 600
  STORYTELLER_PROMPT : List Char := []
  SUMMARY_SPLIT_MARKER : List Char := []
  STOP_TOKENS : List (List Char) := []
  RESERVED_FOR_GENERATION : Nat := 150
deriving DecidableEq

/-- One element of `TokenizedHistory` as read by `flatten_json_prompt`:
only `block.get("summary", "")` is consulted. -/
structure Block where
  summary : List Char
deriving DecidableEq

/-- The structured JSON handed to `flatten_json_prompt` (nested dictionaries
`PlayerInfo` / `GameSettings` flattened into fields). -/
structure JsonData where
  NarratorDirectives : List Char
  UniverseName : List Char
  UniverseTokens : List Char
  StoryPreface : List Char
  PlayerName : List Char
  PlayerGender : List Char
  Rating : List Char
  StorySplitter : List Char
  DeepMemory : Option (List Char)
  TokenizedHistory : List Block
  RecentStory : List (List Char)
  FullHistory : List (List Char)
  CurrentAction : List Char
  ActionMode : List Char
deriving DecidableEq

/-- Python slice `l[-n:]` (for `n = 0` Python returns the whole list). -/
def pyTakeLast (n : Nat) (l : List α) : List α :=
  if n = 0 then l else l.drop (l.length - n)

/-- The fixed base segments (narrator directives, universe, player, rating)
of `flatten_json_prompt`. -/
def base_prompt (j : JsonData) : List Char :=
  lit "# Narrator Directives:\n" ++ j.NarratorDirectives ++
  lit "\n\n# Universe: " ++ j.UniverseName ++ lit "\n" ++ j.UniverseTokens ++
  lit "\n\n# Player: " ++ j.PlayerName ++ lit " (" ++ j.PlayerGender ++
  lit ")\n# Rating: " ++ j.Rating ++ lit "\n\n"

/-- The current-action block plus the story-splitter terminator
(`action_text` in `flatten_json_prompt`). -/
def action_text_of (j : JsonData) : List Char :=
  let current_action := pyStrip j.CurrentAction
  let core :=
    if current_action ≠ [] then
      if j.ActionMode = lit "SPEECH" then
        lit "# Player Says: \"" ++ current_action ++ lit "\"\n\n"
      else if j.ActionMode = lit "NARRATE" then
        lit "# Player Narrative: " ++ current_action ++ lit "\n\n"
      else
        lit "# Player Action: " ++ current_action ++ lit "\n\n"
    else lit "# No Player Action. Continue the story naturally.\n\n"
  core ++ j.StorySplitter ++ lit "\n"

/-- `available_tokens` right after the base and action sections are counted. -/
def available0 (c : List Char → Nat) (j : JsonData) (s : Settings) : Int :=
  s.SAFE_PROMPT_LIMIT - (c (base_prompt j) : Int) - (c (action_text_of j) : Int)

/-- Deep-memory stage of `flatten_json_prompt`: the emitted section text
(possibly empty) and the remaining budget. -/
def deep_stage (c : List Char → Nat) (j : JsonData) (avail : Int) :
    List Char × Int :=
  match j.DeepMemory with
  | some dm =>
    if dm ≠ [] ∧ avail > 0 then
      let ds := lit "# Ancient History (Major Events):\n" ++ pyStrip dm ++ lit "\n\n"
      if (c ds : Int) ≤ avail then (ds, avail - (c ds : Int)) else ([], avail)
    else ([], avail)
  | none => ([], avail)

/-- The `block_text` of a summary block as emitted into `# Past Events:`. -/
def blockText (b : Block) : List Char := pyStrip b.summary ++ lit "\n\n"

/-- The `entry_text` of a raw story entry as emitted into `# Recent Story:`. -/
def entryText (e : List Char) : List Char := pyStrip e ++ lit "\n\n"

/-- The `for block in recent_blocks` loop: walk newest-first, skip blocks with
blank summaries, include a whole block while it fits, stop at the first block
that does not fit; `insert(0, ...)` keeps included blocks in original order.
Returns the included block texts (oldest→newest) and the remaining budget. -/
def selectBlocks (c : List Char → Nat) : List Block → Int → List (List Char) × Int
  | [], avail => ([], avail)
  | b :: rest, avail =>
    let s := pyStrip b.summary
    if s ≠ [] then
      let t := s ++ lit "\n\n"
      if (c t : Int) ≤ avail then
        let p := selectBlocks c rest (avail - (c t : Int))
        (p.1 ++ [t], p.2)
      else ([], avail)
    else selectBlocks c rest avail

/-- The `for entry in recent_entries` loop: newest-first, whole entries while
they fit, stop at the first that does not fit; emitted in original order. -/
def selectEntries (c : List Char → Nat) : List (List Char) → Int → List (List Char) × Int
  | [], avail => ([], avail)
  | e :: rest, avail =>
    let t := entryText e
    if (c t : Int) ≤ avail then
      let p := selectEntries c rest (avail - (c t : Int))
      (p.1 ++ [t], p.2)
    else ([], avail)

/-- Compressed-history stage (`# Past Events:`): gate on a nonempty
`tokenized_history` and positive budget, slice to the newest
`MAX_TOKENIZED_HISTORY_BLOCK` blocks, walk them newest-first. -/
def blocks_stage (c : List Char → Nat) (j : JsonData) (s : Settings)
    (avail : Int) : List (List Char) × Int :=
  if j.TokenizedHistory ≠ [] ∧ avail > 0 then
    selectBlocks c (pyTakeLast s.MAX_TOKENIZED_HISTORY_BLOCK j.TokenizedHistory).reverse avail
  else ([], avail)

/-- Recent-story stage (`# Recent Story:`). -/
def entries_stage (c : List Char → Nat) (j : JsonData) (avail : Int) :
    List (List Char) × Int :=
  if j.RecentStory ≠ [] ∧ avail > 0 then
    selectEntries c j.RecentStory.reverse avail
  else ([], avail)

/-- `flatten_json_prompt(json_data, settings, STORY_TOKENIZER)`: build the
story prompt with token budgeting. `c` is `len(STORY_TOKENIZER.encode(·))`.
Print statements and the print-only `tokens_used` bookkeeping are dropped. -/
def flatten_json_prompt (c : List Char → Nat) (j : JsonData) (s : Settings) :
    List Char :=
  let bp := base_prompt j
  let at_ := action_text_of j
  let a0 := available0 c j s
  let dp := deep_stage c j a0
  let bs := blocks_stage c j s dp.2
  let pastPart := if bs.1 ≠ [] then lit "# Past Events:\n" ++ bs.1.join else []
  let es := entries_stage c j bs.2
  let recentPart := if es.1 ≠ [] then lit "# Recent Story:\n" ++ es.1.join else []
  bp ++ dp.1 ++ pastPart ++ recentPart ++ at_

/-! ## Output sanitizer (`ai/routers/root_router.py`, `generate_from_game`,
lines 112-133). The four `re.sub` calls are embedded as character-level
scanners with the exact match semantics of the Python patterns. -/

/-- Case-insensitive literal match (`re.IGNORECASE`): on success returns the
rest of the input after the literal. -/
def matchCI : List Char → List Char → Option (List Char)
  | [], s => some s
  | _ :: _, [] => none
  | c :: lt, d :: s => if c.toLower = d.toLower then matchCI lt s else none

/-- `\d+\.\d+(\.\d+)?:` — digits, dot, digits, optionally dot digits, colon;
returns the rest after the colon. -/
def tryNumColon (s : List Char) : Option (List Char) :=
  if s.takeWhile Char.isDigit = [] then none else
  match s.dropWhile Char.isDigit with
  | '.' :: r2 =>
    if r2.takeWhile Char.isDigit = [] then none else
    (match r2.dropWhile Char.isDigit with
     | '.' :: r4 =>
       if r4.takeWhile Char.isDigit = [] then none else
       (match r4.dropWhile Char.isDigit with
        | ':' :: r6 => some r6
        | _ => none)
     | ':' :: r4 => some r4
     | _ => none)
  | _ => none

/-- The suffix of a character run starting at its last `'\n'`, if any. -/
def dropFromLastNl : List Char → Option (List Char)
  | [] => none
  | c :: rest =>
    match dropFromLastNl rest with
    | some r => some r
    | none => if c = '\n' then some (c :: rest) else none

/-- Trailing `\s*$` under `re.MULTILINE`: greedily consume whitespace, then
`$` must hold (end of string, or just before a `'\n'`; the greedy engine
backtracks to the last `'\n'` inside the run). Returns the unconsumed rest. -/
def wsDollar (s : List Char) : Option (List Char) :=
  let run := s.takeWhile isPySpace
  let after := s.dropWhile isPySpace
  if after = [] then some []
  else
    match dropFromLastNl run with
    | some r => some (r ++ after)
    | none => none

/-- Match `\s*Chapter\s+\d+\.\d+(\.\d+)?:\s*$` (case-insensitive, multiline
`$`) at the current position; returns the rest after the match. -/
def tryA (s : List Char) : Option (List Char) :=
  match matchCI (lit "chapter") (s.dropWhile isPySpace) with
  | none => none
  | some r2 =>
    if r2.takeWhile isPySpace = [] then none
    else
      match tryNumColon (r2.dropWhile isPySpace) with
      | none => none
      | some r3 => wsDollar r3

/-- Match `\s*\d+\.\d+(\.\d+)?:\s*$` (multiline `$`) at the current position. -/
def tryB (s : List Char) : Option (List Char) :=
  match tryNumColon (s.dropWhile isPySpace) with
  | none => none
  | some r3 => wsDollar r3

/-- Match `\s*Chapter\s+\d+\.\d+(\.\d+)?:\s*` (case-insensitive, no `$`). -/
def tryC (s : List Char) : Option (List Char) :=
  match matchCI (lit "chapter") (s.dropWhile isPySpace) with
  | none => none
  | some r2 =>
    if r2.takeWhile isPySpace = [] then none
    else
      match tryNumColon (r2.dropWhile isPySpace) with
      | none => none
      | some r3 => some (r3.dropWhile isPySpace)

/-- Match `\s*\d+\.\d+(\.\d+)?:\s*` (no `$`). -/
def tryD (s : List Char) : Option (List Char) :=
  match tryNumColon (s.dropWhile isPySpace) with
  | none => none
  | some r3 => some (r3.dropWhile isPySpace)

/-- Match `#\s*(No player action|Current Player Action|Continue|Recent Story).*$`
(case-insensitive) at the current position. -/
def tryE (s : List Char) : Option (List Char) :=
  match s with
  | '#' :: r1 =>
    let r2 := r1.dropWhile isPySpace
    let alt :=
      match matchCI (lit "No player action") r2 with
      | some r => some r
      | none =>
        match matchCI (lit "Current Player Action") r2 with
        | some r => some r
        | none =>
          match matchCI (lit "Continue") r2 with
          | some r => some r
          | none => matchCI (lit "Recent Story") r2
    match alt with
    | none => none
    | some r3 => some (r3.dropWhile (fun d => d ≠ '\n'))
  | _ => none

/-- `re.sub` driver for a `^`-anchored multiline pattern: attempt the match at
every line start, drop matched spans, copy everything else. Fuelled; each step
consumes at least one character, so `length + 1` fuel is exact. -/
def subScanLines (tm : List Char → Option (List Char)) :
    Nat → Bool → List Char → List Char
  | 0, _, s => s
  | _ + 1, _, [] => []
  | n + 1, flag, c :: rest =>
    if flag then
      match tm (c :: rest) with
      | some r =>
        let consumed := (c :: rest).take ((c :: rest).length - r.length)
        subScanLines tm n (consumed.getLast? == some '\n') r
      | none => c :: subScanLines tm n (c == '\n') rest
    else c :: subScanLines tm n (c == '\n') rest

/-- `re.sub` driver for an unanchored pattern: attempt at every position. -/
def subScanAll (tm : List Char → Option (List Char)) :
    Nat → List Char → List Char
  | 0, s => s
  | _ + 1, [] => []
  | n + 1, c :: rest =>
    match tm (c :: rest) with
    | some r => subScanAll tm n r
    | none => c :: subScanAll tm n rest

/-- `re.sub` driver for a pattern anchored with `^` without `re.MULTILINE`:
only position 0 can match. -/
def subOnce (tm : List Char → Option (List Char)) (s : List Char) : List Char :=
  match tm s with
  | some r => r
  | none => s

/-- `re.sub(r'^\s*Chapter\s+\d+\.\d+(\.\d+)?:\s*$', '', text, MULTILINE|IGNORECASE)`. -/
def subA (s : List Char) : List Char := subScanLines tryA (s.length + 1) true s

/-- `re.sub(r'^\s*\d+\.\d+(\.\d+)?:\s*$', '', text, MULTILINE)`. -/
def subB (s : List Char) : List Char := subScanLines tryB (s.length + 1) true s

/-- `re.sub(r'^\s*Chapter\s+\d+\.\d+(\.\d+)?:\s*', '', text, IGNORECASE)`. -/
def subC (s : List Char) : List Char := subOnce tryC s

/-- `re.sub(r'^\s*\d+\.\d+(\.\d+)?:\s*', '', text)`. -/
def subD (s : List Char) : List Char := subOnce tryD s

/-- `re.sub(r'#\s*(No player action|Current Player Action|Continue|Recent Story).*$', '', text, MULTILINE|IGNORECASE)`. -/
def subE (s : List Char) : List Char := subScanAll tryE (s.length + 1) s

/-- The stop-token prefix-removal loop (lines 113-115): for each configured
stop token in order, if the stripped text starts with it, drop it and lstrip. -/
def stopTokenPass (stops : List (List Char)) (t : List Char) : List Char :=
  stops.foldl (fun tx tok =>
    if tok.isPrefixOf (pyStrip tx) then pyLStrip ((pyStrip tx).drop tok.length)
    else tx) t

/-- Story-splitter stripping (lines 128-129): keep only what follows the last
occurrence of the splitter, stripped. -/
def splitterPass (splitter t : List Char) : List Char :=
  if occursIn splitter t then pyStrip (lastAfter splitter t) else t

/-- The output-sanitization block of `generate_from_game` (lines 112-133):
stop-token prefix removal, the four chapter-marker substitutions, story-splitter
stripping, prompt-artifact removal, and the final `strip()`. -/
def sanitize (stops : List (List Char)) (splitter : List Char)
    (t0 : List Char) : List Char :=
  pyStrip (subE (splitterPass splitter
    (subD (subC (subB (subA (stopTokenPass stops t0)))))))

/-! ## `generate_from_game` (`ai/routers/root_router.py`, lines 49-140) -/

/-- Request body of `/generate_from_game/`. -/
structure GenerateFromGameRequest where
  world_name : List Char
  world_tokens : List Char
  story_preface : List Char
  rating_name : List Char
  story_splitter : List Char
  player_name : List Char
  player_gender : List Char
  user_input : List Char
  action_mode : List Char
  deep_memory : Option (List Char)
  tokenized_history : List Block
  history : List (List Char)
deriving DecidableEq

/-- The `structured_json` dictionary built in `generate_from_game`
(lines 61-80). -/
def structured_json (s : Settings) (r : GenerateFromGameRequest) : JsonData where
  NarratorDirectives := s.STORYTELLER_PROMPT
  UniverseName := r.world_name
  UniverseTokens := r.world_tokens
  StoryPreface := r.story_preface
  PlayerName := r.player_name
  PlayerGender := r.player_gender
  Rating := r.rating_name
  StorySplitter := r.story_splitter
  DeepMemory := r.deep_memory
  TokenizedHistory :=
    if r.tokenized_history ≠ [] then
      pyTakeLast s.MAX_TOKENIZED_HISTORY_BLOCK r.tokenized_history
    else []
  RecentStory :=
    if r.history ≠ [] then pyTakeLast s.RECENT_MEMORY_LIMIT r.history else []
  FullHistory := r.history
  CurrentAction := r.user_input
  ActionMode := r.action_mode

/-- The retry loop of `generate_from_game` (lines 95-138): up to 15 attempts,
each sanitized; stop at the first non-blank result. `gen prompt i` is the
decode of the newly generated tokens of attempt `i` for `prompt`. -/
def genAttempts (gen : List Char → Nat → List Char) (prompt : List Char)
    (stops : List (List Char)) (splitter : List Char) :
    List Nat → List Char → List Char
  | [], last => last
  | i :: rest, _ =>
    let t := sanitize stops splitter (gen prompt i)
    if pyStrip t ≠ [] then t else genAttempts gen prompt stops splitter rest t

/-- `generate_from_game`: build the structured JSON, flatten it into a prompt
(the prompt is always handed to the generator — there is no failure path),
then sanitize with retries. Returns `(prompt sent to the model, story)`. -/
def generate_from_game (c : List Char → Nat) (gen : List Char → Nat → List Char)
    (s : Settings) (r : GenerateFromGameRequest) : List Char × List Char :=
  let j := structured_json s r
  let prompt := flatten_json_prompt c j s
  let story := genAttempts gen prompt s.STOP_TOKENS r.story_splitter
    ((List.range 15).map (· + 1)) []
  (prompt, pyStrip story)

/-! ## Summarization prompt (`ai/routers/root_router.py`, `summarize_chunk`,
lines 142-257) -/

/-- The fixed compression-rules header plus `"\n# Story Segment:\n"`
(`header = "".join(prompt_parts)`). -/
def summarize_header : List Char :=
  lit "Condense this story segment into the most efficient summary possible.\nInclude ONLY:\n  - Major plot events and outcomes\n  - Character relationship changes\n  - Critical discoveries, tasks, or missions\n  - Important character decisions or actions\nExclude:\n  - Character backstories already established\n  - Atmospheric descriptions\n  - Dialogue and minor interactions\n  - Repeated information\n  - Narrative or analytical commentary\nBe extremely concise. Use simple, direct language.\nWrite in bullet points or a single direct sentence. No narrative, review, or analysis.\nDo not use any symbols or formatting-just plain text.\n" ++
  lit "\n# Story Segment:\n"

/-- `footer = f"\n\n{SUMMARY_SPLIT_MARKER}\n"`. -/
def summarize_footer (s : Settings) : List Char :=
  lit "\n\n" ++ s.SUMMARY_SPLIT_MARKER ++ lit "\n"

/-- Python `entry.split()`: maximal runs of non-whitespace. -/
def pyWordsAux (cur : List Char) : List Char → List (List Char)
  | [] => if cur = [] then [] else [cur.reverse]
  | c :: rest =>
    if isPySpace c then
      if cur = [] then pyWordsAux [] rest else cur.reverse :: pyWordsAux [] rest
    else pyWordsAux (c :: cur) rest

/-- Python `entry.split()`. -/
def pyWords (s : List Char) : List (List Char) := pyWordsAux [] s

/-- The word-by-word truncation loop of `summarize_chunk` (lines 204-213):
grow `truncated` one word at a time while the accumulated text still fits. -/
def truncateWords (c : List Char → Nat) (avail : Int) :
    List (List Char) → List Char → List Char
  | [], acc => acc
  | w :: rest, acc =>
    let test := if acc ≠ [] then acc ++ ' ' :: w else w
    if (c test : Int) ≤ avail then truncateWords c avail rest test else acc

/-- The entry text of one chunk entry: `entry.strip() + "\n"`. -/
def chunkEntryText (e : List Char) : List Char := pyStrip e ++ lit "\n"

/-- Whole-entry greedy inclusion (entries after the first): include while each
fits, stop at the first entry that does not fit. -/
def selectWholeParts (c : List Char → Nat) (avail : Int) :
    List (List Char) → List (List Char)
  | [] => []
  | e :: rest =>
    let t := chunkEntryText e
    if (c t : Int) ≤ avail then t :: selectWholeParts c (avail - (c t : Int)) rest
    else []

/-- `chunk_text_parts` of `summarize_chunk` (lines 192-215): entries are added
whole in the order given while each fits; if the very first entry does not
fit, a word-truncated version of it (suffixed `"...\n"`) is included instead
when nonempty. -/
def chunkParts (c : List Char → Nat) (avail : Int) :
    List (List Char) → List (List Char)
  | [] => []
  | e :: rest =>
    let t := chunkEntryText e
    if (c t : Int) ≤ avail then t :: selectWholeParts c (avail - (c t : Int)) rest
    else
      let tr := truncateWords c avail (pyWords e) []
      if tr ≠ [] then [tr ++ lit "...\n"] else []

/-- The prompt assembled by `summarize_chunk`:
`header + "".join(chunk_text_parts) + footer`, with
`available = SAFE_PROMPT_LIMIT - header_tokens - footer_tokens - max_tokens`. -/
def summarize_chunk_prompt (c : List Char → Nat) (s : Settings)
    (chunk : List (List Char)) (max_tokens : Nat) : List Char :=
  let header := summarize_header
  let footer := summarize_footer s
  let avail : Int :=
    s.SAFE_PROMPT_LIMIT - (c header : Int) - (c footer : Int) - (max_tokens : Int)
  header ++ (chunkParts c avail chunk).flatten ++ footer

/-- Response post-processing of `summarize_chunk` (lines 244-248): when the
marker occurs, keep `split(marker)[-1]`; then `strip()`. -/
def stripSummaryResponse (marker resp : List Char) : List Char :=
  pyStrip (if occursIn marker resp then lastAfter marker resp else resp)

/-- `summarize_chunk`: build the budgeted prompt, call the generator (`gen`
returns the full decoded output, prompt echo included), strip everything up to
and including the last marker occurrence. -/
def summarize_chunk (c : List Char → Nat) (gen : List Char → List Char)
    (s : Settings) (chunk : List (List Char)) (max_tokens : Nat) : List Char :=
  stripSummaryResponse s.SUMMARY_SPLIT_MARKER
    (gen (summarize_chunk_prompt c s chunk max_tokens))

/-! ## History compactor (`routers/history.py`)

Database rows are modelled as lists held by a `GameState`: `history` in
ascending `entry_index` order and `chunks` in ascending `end_index` order
(the order in which the compactor creates them), so the query
`order_by(end_index.desc()).first()` is `getLast?`.  Comma-joined
`history_references` strings are modelled as the list of ids they encode.
The external summarization calls (`summarize_history_chunk`,
`compress_to_deep_memory`) are parameters returning `(summary, token_count)`.
`entry.token_count` is the value after `ensure_history_token_counts`
(`h.token_count or 0`). -/

/-- A `StoryHistory` row. -/
structure HistoryEntry where
  id : Nat
  entry_index : Nat
  text : List Char
  token_count : Nat
  is_tokenized : Bool
deriving DecidableEq

/-- A `TokenizedHistory` row (`is_tokenized = true` means compressed into
deep memory, i.e. no longer Active). -/
structure TokenizedHistory where
  start_index : Nat
  end_index : Nat
  summary : List Char
  token_count : Nat
  history_references : List Nat
  is_tokenized : Bool
deriving DecidableEq

/-- The `DeepMemory` row of a saved game. -/
structure DeepMemory where
  summary : List Char
  token_count : Nat
  chunks_merged : Nat
  last_merged_end_index : Nat
deriving DecidableEq

/-- The per-game persistent state the history routes operate on. -/
structure GameState where
  history : List HistoryEntry
  chunks : List TokenizedHistory
  deep : Option DeepMemory
deriving DecidableEq

/-- Mark the first `n` not-yet-tokenized chunks in list order (the ORM marks
the selected oldest Active rows; in ascending order those are exactly the
first `n` active ones). -/
def markFirstActive : Nat → List TokenizedHistory → List TokenizedHistory
  | _, [] => []
  | 0, l => l
  | n + 1, ch :: rest =>
    if ch.is_tokenized then ch :: markFirstActive (n + 1) rest
    else { ch with is_tokenized := true } :: markFirstActive n rest

/-- `check_and_tokenize_history` up to its `db.commit()` (lines 131-262),
i.e. without the trailing deep-memory compression call.  `S chunk_texts
previous_summary` models `summarize_history_chunk`, returning the new summary
and its token count.  The float test `token_count / BLOCK < 0.9` is modelled
exactly as `10 * token_count < 9 * BLOCK`. -/
def check_and_tokenize_core
    (S : List (List Char) → Option (List Char) → List Char × Nat)
    (TOKENIZE_THRESHOLD TOKENIZED_HISTORY_BLOCK_SIZE : Nat)
    (st : GameState) : GameState :=
  if st.history = [] then st
  else
    let untokenized := st.history.filter (fun h => !h.is_tokenized)
    if hu : untokenized = [] then st
    else
      let total := (untokenized.map (·.token_count)).sum
      if total ≥ TOKENIZE_THRESHOLD then
        let latest? := st.chunks.getLast?
        let should_merge0 : Bool :=
          match latest? with
          | some lt =>
            lt.token_count ≠ 0 &&
            decide (10 * lt.token_count < 9 * TOKENIZED_HISTORY_BLOCK_SIZE)
          | none => false
        let chunk_entries := untokenized
        let previous_summary := latest?.map (·.summary)
        let p := S (chunk_entries.map (·.text)) previous_summary
        let new_summary := p.1
        let new_tc := p.2
        let new_refs : List Nat := chunk_entries.map (fun e => e.id)
        let newChunk : TokenizedHistory :=
          { start_index := (chunk_entries.head hu).entry_index,
            end_index := (chunk_entries.getLast hu).entry_index,
            summary := new_summary,
            token_count := new_tc,
            history_references := new_refs,
            is_tokenized := false }
        let st1 :=
          match latest? with
          | some lt =>
            if should_merge0 then
              let combined_summary :=
                if lt.summary ≠ [] then lt.summary ++ '\n' :: new_summary
                else new_summary
              let combined_tc :=
                if lt.summary ≠ [] then lt.token_count + new_tc else new_tc
              if combined_tc > TOKENIZED_HISTORY_BLOCK_SIZE then
                { st with chunks := st.chunks ++ [newChunk] }
              else
                { st with chunks := st.chunks.dropLast ++ [{ lt with
                    summary := combined_summary,
                    token_count := combined_tc,
                    end_index := (chunk_entries.getLast hu).entry_index,
                    history_references :=
                      if lt.history_references ≠ [] then
                        lt.history_references ++ new_refs
                      else new_refs }] }
            else { st with chunks := st.chunks ++ [newChunk] }
          | none => { st with chunks := st.chunks ++ [newChunk] }
        { st1 with history := st1.history.map (fun e =>
            if e.is_tokenized then e else { e with is_tokenized := true }) }
      else st

/-- `compress_old_chunks_to_deep_memory` (lines 268-362). `Scomp summaries
DEEP_MEMORY_MAX_TOKENS` models `compress_to_deep_memory`. -/
def compress_old_chunks_to_deep_memory
    (Scomp : List (List Char) → Nat → List Char × Nat)
    (MAX_TOKENIZED_HISTORY_BLOCK DEEP_MEMORY_MAX_TOKENS : Nat)
    (st : GameState) : GameState :=
  let active := st.chunks.filter (fun ch => !ch.is_tokenized)
  let chunk_count := active.length
  if chunk_count ≤ MAX_TOKENIZED_HISTORY_BLOCK then st
  else
    let chunks_to_compress := chunk_count - MAX_TOKENIZED_HISTORY_BLOCK + 2
    let old_chunks := active.take chunks_to_compress
    if ho : old_chunks = [] then st
    else
      let summaries :=
        (match st.deep with | some d => [d.summary] | none => []) ++
        old_chunks.map (·.summary)
      let p := Scomp summaries DEEP_MEMORY_MAX_TOKENS
      let deep' : DeepMemory :=
        match st.deep with
        | some d =>
          { d with
            summary := p.1, token_count := p.2,
            chunks_merged := d.chunks_merged + old_chunks.length,
            last_merged_end_index := (old_chunks.getLast ho).end_index }
        | none =>
          { summary := p.1, token_count := p.2,
            chunks_merged := old_chunks.length,
            last_merged_end_index := (old_chunks.getLast ho).end_index }
      { st with chunks := markFirstActive chunks_to_compress st.chunks,
                deep := some deep' }

/-- Whether `check_and_tokenize_history` reaches its tokenization branch. -/
def tokenizeTriggered (TOKENIZE_THRESHOLD : Nat) (st : GameState) : Bool :=
  !st.history.isEmpty &&
  (let u := st.history.filter (fun h => !h.is_tokenized)
   !u.isEmpty && (u.map (·.token_count)).sum ≥ TOKENIZE_THRESHOLD)

/-- Full `check_and_tokenize_history`: the tokenization step followed by the
deep-memory compression check (the latter only runs when a chunk was written,
mirroring the call placement inside the threshold branch). -/
def check_and_tokenize_history
    (S : List (List Char) → Option (List Char) → List Char × Nat)
    (Scomp : List (List Char) → Nat → List Char × Nat)
    (TOKENIZE_THRESHOLD TOKENIZED_HISTORY_BLOCK_SIZE : Nat)
    (MAX_TOKENIZED_HISTORY_BLOCK DEEP_MEMORY_MAX_TOKENS : Nat)
    (st : GameState) : GameState :=
  if tokenizeTriggered TOKENIZE_THRESHOLD st then
    compress_old_chunks_to_deep_memory Scomp
      MAX_TOKENIZED_HISTORY_BLOCK DEEP_MEMORY_MAX_TOKENS
      (check_and_tokenize_core S TOKENIZE_THRESHOLD TOKENIZED_HISTORY_BLOCK_SIZE st)
  else check_and_tokenize_core S TOKENIZE_THRESHOLD TOKENIZED_HISTORY_BLOCK_SIZE st

/-- `delete_history_entry` (lines 65-99): `none` models the 404 path.  For
each chunk of the game whose references contain the id, the first occurrence
is removed (`list.remove` = `List.erase`); a chunk whose reference list
becomes empty is deleted.  The deep-memory row is never touched. -/
def delete_history_entry (history_id : Nat) (st : GameState) :
    Option GameState :=
  match st.history.find? (fun h => h.id = history_id) with
  | none => none
  | some _ =>
    let chunks' := st.chunks.filterMap (fun ch =>
      if ch.history_references ≠ [] then
        if ch.history_references.contains history_id then
          let refs := ch.history_references.erase history_id
          if refs = [] then none
          else some { ch with history_references := refs }
        else some ch
      else some ch)
    some { st with
      chunks := chunks',
      history := st.history.filter (fun h => h.id ≠ history_id) }

/-! ## Query terms and section selection
(`ai/lookup_ai/query_terms.py`, `ai/lookup_ai/section_selector.py`) -/

/-- `re.finditer(r'"([^\"]+)"|\'([^\']+)\'', query)`: the group contents of
the quoted phrases, leftmost non-overlapping (a quote with empty content or
no closing quote does not match and scanning resumes one character later). -/
def findQuoted : Nat → List Char → List (List Char)
  | 0, _ => []
  | _ + 1, [] => []
  | n + 1, c :: rest =>
    if c = '"' ∨ c = '\'' then
      let content := rest.takeWhile (fun d => d ≠ c)
      let after := rest.dropWhile (fun d => d ≠ c)
      match after with
      | _ :: tail =>
        if content ≠ [] then content :: findQuoted n tail
        else findQuoted n rest
      | [] => findQuoted n rest
    else findQuoted n rest

/-- `re.sub(r'"[^\"]+"|\'[^\']+\'', ' ', query)`: replace each quoted phrase
with a single space. -/
def removeQuoted : Nat → List Char → List Char
  | 0, s => s
  | _ + 1, [] => []
  | n + 1, c :: rest =>
    if c = '"' ∨ c = '\'' then
      let content := rest.takeWhile (fun d => d ≠ c)
      let after := rest.dropWhile (fun d => d ≠ c)
      match after with
      | _ :: tail =>
        if content ≠ [] then ' ' :: removeQuoted n tail
        else c :: removeQuoted n rest
      | [] => c :: removeQuoted n rest
    else c :: removeQuoted n rest

/-- `re.findall(r"[0-9A-Za-z]+", text)`: maximal alphanumeric runs. -/
def alnumWordsAux (cur : List Char) : List Char → List (List Char)
  | [] => if cur = [] then [] else [cur.reverse]
  | c :: rest =>
    if c.isAlphanum then alnumWordsAux (c :: cur) rest
    else if cur = [] then alnumWordsAux [] rest
    else cur.reverse :: alnumWordsAux [] rest

/-- `re.findall(r"[0-9A-Za-z]+", text)`. -/
def alnumWords (s : List Char) : List (List Char) := alnumWordsAux [] s

/-- Order-preserving deduplication (the `seen` loop). -/
def dedupKeep (seen : List (List Char)) : List (List Char) → List (List Char)
  | [] => []
  | t :: rest =>
    if seen.contains t then dedupKeep seen rest
    else t :: dedupKeep (t :: seen) rest

/-- `extract_query_terms(query_text)`: quoted phrases normalized to a single
lowercase alphanumeric token, then the unquoted words (quoted phrases removed
first) lowercased, deduplicated preserving order. -/
def extract_query_terms (q : List Char) : List (List Char) :=
  if q = [] then []
  else
    let quoted := (findQuoted (q.length + 1) q).filterMap (fun g =>
      let s := (g.filter Char.isAlphanum).map Char.toLower
      if s = [] then none else some s)
    let words := (alnumWords (removeQuoted (q.length + 1) q)).map
      (fun w => w.map Char.toLower)
    dedupKeep [] (quoted ++ words)

/-- `select_sections(sections, query_terms, max_sections)`: keep sections
whose lowered title or its alphanumeric-only form contains some term as a
substring; fall back to the first `max_sections` when no term matches. -/
def select_sections (sections : List (List Char × List Char))
    (query_terms : List (List Char)) (max_sections : Nat := 3) :
    List (List Char × List Char) :=
  if sections = [] then []
  else if query_terms = [] then sections.take max_sections
  else
    let filtered := sections.filter (fun tb =>
      let tl := tb.1.map Char.toLower
      let tnos := tl.filter Char.isAlphanum
      query_terms.any (fun term => occursIn term tl || occursIn term tnos))
    if filtered ≠ [] then filtered.take max_sections
    else sections.take max_sections

/-! ## Lore describer (`ai/services/lookup_ai_service.py`, `describe_entity_ai`)

The retrieval half (search, fetch, excerpt assembly, lines 62-131) performs no
model call and is abstracted as its resulting weighted excerpt list
`collected`; the function below embeds lines 131-203.  Python `NameError`
(the undefined variable `name` on line 145) is modelled as `Except.error`;
reaching `Except.ok` is what hands the assembled chunk to the model call
(`perform_deep_summarize_chunk`), so an `error` result means the model is
never called. -/

inductive PyError where
  | nameError
deriving DecidableEq

/-- `MAX_SUMMARY_TOKENS` (module constant). -/
def MAX_SUMMARY_TOKENS : Nat := 800

/-- The source-inclusion loop of `describe_entity_ai` (lines 159-180):
delta-budgeted greedy packing in sorted order. -/
def describeInclude (c : List Char → Nat) :
    List (Int × List Char) → Int → List (List Char) → List (List Char)
  | [], _, included => included
  | (_, text) :: rest, avail, included =>
    if text = [] then describeInclude c rest avail included
    else
      let pre := lit "\n\nSOURCES:\n"
      let current_body :=
        if included ≠ [] then pre ++ List.intercalate (lit "\n\n---\n\n") included
        else pre
      let candidate_body :=
        current_body ++ (if included ≠ [] then lit "\n\n---\n\n" else []) ++ text
      let delta : Int :=
        max 0 ((c candidate_body : Int) - (c current_body : Int))
      if delta ≤ avail then
        describeInclude c rest (avail - delta) (included ++ [text])
      else describeInclude c rest avail included

/-- An apostrophe character (for string building). -/
def apos : Char := '\x27'

/-- The fallback sources chunk (lines 186-189). -/
def noSourcesChunk : List Char :=
  lit "\n\nSources: None found. Use only the provided sources to answer. If no factual information is available for this query, respond: " ++
  [apos] ++ lit "No factual information available for this query." ++ [apos]

/-- `describe_entity_ai` from the settings lookup onward (lines 135-203):
builds the header (raising `NameError` on a blank `command_prompt`), packs the
sorted excerpts under
`SAFE_PROMPT_LIMIT - MAX_SUMMARY_TOKENS - 50 - header_tokens`, and returns
the chunk that is handed to the model call. -/
def describe_entity_ai (c : List Char → Nat) (settings : Settings)
    (collected : List (Int × List Char)) (command_prompt : Option (List Char))
    (meta_data : Option (List Char)) (prompt_instruction : Option (List Char)) :
    Except PyError (List Char) :=
  let sorted := collected.mergeSort (fun a b => a.1 ≥ b.1)
  let safe_limit := settings.SAFE_PROMPT_LIMIT
  let reserved_for_output := MAX_SUMMARY_TOKENS
  let margin : Nat := 50
  let pi :=
    match prompt_instruction with
    | some p => if p ≠ [] then p else lit "You are a concise describer."
    | none => lit "You are a concise describer."
  match
    (match command_prompt with
     | some s => if pyStrip s ≠ [] then Except.ok (pyStrip s) else Except.error PyError.nameError
     | none => Except.error PyError.nameError : Except PyError (List Char))
  with
  | Except.error e => Except.error e
  | Except.ok user_query_line =>
    let metaStr := match meta_data with | some m => m | none => lit "None"
    let header_text :=
      lit "\n\n# Describer Prompt:\n" ++ pi ++ lit "\n\n# User included Metadata:\n" ++
      metaStr ++ lit "\n\nUser Query: " ++ user_query_line ++ lit "\n"
    let header_tokens := c header_text
    let available_tokens : Int :=
      max 0 (safe_limit - (reserved_for_output : Int) - (margin : Int) - (header_tokens : Int))
    let included := describeInclude c sorted available_tokens []
    let chunk :=
      if included ≠ [] then
        lit "\n\nSOURCES:\n" ++ List.intercalate (lit "\n\n---\n\n") included
      else noSourcesChunk
    Except.ok (chunk ++ header_text)

/-! ## Concrete inputs used by counterexamples and witnesses -/

/-- A small game input: no history, no deep memory, one raw story entry. -/
def exampleJson : JsonData where
  NarratorDirectives := lit "Narrate well."
  UniverseName := lit "Eldoria"
  UniverseTokens := lit "A land of dragons."
  StoryPreface := []
  PlayerName := lit "Ann"
  PlayerGender := lit "F"
  Rating := lit "PG"
  StorySplitter := lit "###"
  DeepMemory := none
  TokenizedHistory := []
  RecentStory := [lit "hello"]
  FullHistory := []
  CurrentAction := []
  ActionMode := lit "ACTION"

/-- Settings whose limit leaves exactly the budget for the single raw entry
(`entryText "hello"` is 7 characters), with a length-1-per-character
tokenizer; the uncounted `# Recent Story:\n` header then pushes the final
prompt over `SAFE_PROMPT_LIMIT`. -/
def settingsC1 : Settings :=
  { SAFE_PROMPT_LIMIT :=
      ((base_prompt exampleJson).length : Int) +
      ((action_text_of exampleJson).length : Int) + 7 }

/-- A request whose base and action segments alone exceed the zero budget. -/
def exampleReq : GenerateFromGameRequest where
  world_name := lit "Eldoria"
  world_tokens := lit "A land of dragons."
  story_preface := []
  rating_name := lit "PG"
  story_splitter := lit "###"
  player_name := lit "Ann"
  player_gender := lit "F"
  user_input := lit "look around"
  action_mode := lit "ACTION"
  deep_memory := none
  tokenized_history := []
  history := [lit "hello"]

/-- Settings with a zero prompt budget. -/
def settingsC2 : Settings :=
  { SAFE_PROMPT_LIMIT := 0, STORYTELLER_PROMPT := lit "Narrate well." }

/-- A deterministic stand-in for the external `summarize_history_chunk` call,
used by concrete witnesses. -/
def constS : List (List Char) → Option (List Char) → List Char × Nat :=
  fun _ _ => (lit "sum", 5)

/-- A deterministic stand-in for the external `compress_to_deep_memory` call. -/
def constComp : List (List Char) → Nat → List Char × Nat :=
  fun _ _ => (lit "deep", 7)

/-- Game state for the merge-path witness: two fresh entries totalling 13
tokens against a threshold of 10, and a latest chunk at 140/200 utilization. -/
def stC4 : GameState where
  history :=
    [{ id := 1, entry_index := 0, text := lit "a", token_count := 6, is_tokenized := false },
     { id := 2, entry_index := 1, text := lit "b", token_count := 7, is_tokenized := false }]
  chunks :=
    [{ start_index := 0, end_index := 0, summary := lit "old", token_count := 140,
       history_references := [9], is_tokenized := false }]
  deep := none

/-- Game state with eight Active chunks (end indices 1..8) and an existing
deep memory, for the deep-compaction witness. -/
def stC5 : GameState where
  history := []
  chunks :=
    [{ start_index := 1, end_index := 1, summary := lit "s1", token_count := 10, history_references := [1], is_tokenized := false },
     { start_index := 2, end_index := 2, summary := lit "s2", token_count := 10, history_references := [2], is_tokenized := false },
     { start_index := 3, end_index := 3, summary := lit "s3", token_count := 10, history_references := [3], is_tokenized := false },
     { start_index := 4, end_index := 4, summary := lit "s4", token_count := 10, history_references := [4], is_tokenized := false },
     { start_index := 5, end_index := 5, summary := lit "s5", token_count := 10, history_references := [5], is_tokenized := false },
     { start_index := 6, end_index := 6, summary := lit "s6", token_count := 10, history_references := [6], is_tokenized := false },
     { start_index := 7, end_index := 7, summary := lit "s7", token_count := 10, history_references := [7], is_tokenized := false },
     { start_index := 8, end_index := 8, summary := lit "s8", token_count := 10, history_references := [8], is_tokenized := false }]
  deep := some { summary := lit "d", token_count := 3, chunks_merged := 2, last_merged_end_index := 0 }

/-- Game state for the deletion witness: entry 1 is referenced by the first
chunk together with entry 2, and alone by the second chunk. -/
def stC6 : GameState where
  history :=
    [{ id := 1, entry_index := 0, text := lit "a", token_count := 3, is_tokenized := true },
     { id := 2, entry_index := 1, text := lit "b", token_count := 4, is_tokenized := false }]
  chunks :=
    [{ start_index := 0, end_index := 1, summary := lit "s", token_count := 5,
       history_references := [1, 2], is_tokenized := false },
     { start_index := 2, end_index := 3, summary := lit "t", token_count := 6,
       history_references := [1], is_tokenized := false }]
  deep := some { summary := lit "d", token_count := 3, chunks_merged := 2, last_merged_end_index := 1 }

/-! ## General list helpers -/

theorem dropWhile_idem (p : Char → Bool) (l : List Char) :
    (l.dropWhile p).dropWhile p = l.dropWhile p := by
  induction l with
  | nil => rfl
  | cons c t ih =>
    by_cases h : p c
    · simp [List.dropWhile_cons, h, ih]
    · simp [List.dropWhile_cons, h]

theorem dropWhile_suffix (p : Char → Bool) (l : List Char) :
    ∃ w, w ++ l.dropWhile p = l := by
  induction l with
  | nil => exact ⟨[], rfl⟩
  | cons c t ih =>
    by_cases h : p c
    · obtain ⟨w, hw⟩ := ih
      exact ⟨c :: w, by simp [List.dropWhile_cons, h, hw]⟩
    · exact ⟨[], by simp [List.dropWhile_cons, h]⟩

theorem pyRStrip_prefix (l : List Char) : ∃ w, pyRStrip l ++ w = l := by
  obtain ⟨w, hw⟩ := dropWhile_suffix isPySpace l.reverse
  refine ⟨w.reverse, ?_⟩
  have := congrArg List.reverse hw
  simpa [pyRStrip] using this

theorem pyStrip_infix (l : List Char) : ∃ a b, a ++ pyStrip l ++ b = l := by
  obtain ⟨a, ha⟩ := dropWhile_suffix isPySpace l
  obtain ⟨b, hb⟩ := pyRStrip_prefix (pyLStrip l)
  exact ⟨a, b, by simp only [pyStrip]; rw [List.append_assoc, hb]; exact ha⟩

theorem pyRStrip_idem (l : List Char) : pyRStrip (pyRStrip l) = pyRStrip l := by
  simp [pyRStrip, dropWhile_idem]

theorem head_dropWhile_false {p : Char → Bool} {l : List Char} {c : Char}
    {t : List Char} (h : l.dropWhile p = c :: t) : p c = false := by
  induction l with
  | nil => simp at h
  | cons d r ih =>
    by_cases hd : p d
    · exact ih (by simpa [List.dropWhile_cons, hd] using h)
    · rw [List.dropWhile_cons, if_neg (by simpa using hd)] at h
      cases h
      simpa using hd

theorem getLast_append_of_ne_nil {l₁ l₂ : List Char} (h : l₂ ≠ []) :
    (l₁ ++ l₂).getLast? = l₂.getLast? := by
  cases l₂ with
  | nil => exact absurd rfl h
  | cons c t =>
    simp only [List.getLast?_append]
    cases hx : (c :: t).getLast? with
    | none => simp [List.getLast?_eq_none_iff] at hx
    | some x => simp [hx]

theorem pyLStrip_of_stripped (l : List Char) : pyLStrip (pyStrip l) = pyStrip l := by
  unfold pyStrip pyRStrip
  cases hv : pyLStrip l with
  | nil => simp [pyLStrip]
  | cons c t =>
    have hc : isPySpace c = false := head_dropWhile_false (l := l) hv
    cases hw : (c :: t).reverse.dropWhile isPySpace with
    | nil => simp [hw, pyLStrip]
    | cons d r =>
      obtain ⟨w, hsuf⟩ := dropWhile_suffix isPySpace (c :: t).reverse
      rw [hw] at hsuf
      have hlast : (d :: r).getLast? = some c := by
        have h1 : (w ++ d :: r).getLast? = (c :: t).reverse.getLast? :=
          congrArg List.getLast? hsuf
        rw [getLast_append_of_ne_nil (by simp)] at h1
        rw [h1]
        simp [List.getLast?_reverse]
      rw [pyLStrip]
      cases hrev : (d :: r).reverse with
      | nil => simp at hrev
      | cons e s =>
        have he : e = c := by
          have : (d :: r).getLast? = some e := by
            rw [← List.head?_reverse, hrev]; rfl
          rw [hlast] at this
          exact (Option.some.injEq _ _ ▸ this).symm
        rw [List.dropWhile_cons, he, hc]
        simp

theorem pyStrip_idem (l : List Char) : pyStrip (pyStrip l) = pyStrip l := by
  show pyRStrip (pyLStrip (pyStrip l)) = pyStrip l
  rw [pyLStrip_of_stripped]
  show pyRStrip (pyRStrip (pyLStrip l)) = pyStrip l
  rw [pyRStrip_idem]
  rfl

/-! ## Budget invariants of the assembler stages -/

theorem selectEntries_budget (c : List Char → Nat) :
    ∀ (l : List (List Char)) (a : Int), 0 ≤ a →
      (selectEntries c l a).2
        = a - (((selectEntries c l a).1).map (fun t => (c t : Int))).sum ∧
      0 ≤ (selectEntries c l a).2 := by
  intro l
  induction l with
  | nil => intro a ha; simpa [selectEntries] using ha
  | cons e rest ih =>
    intro a ha
    simp only [selectEntries]
    by_cases hf : (c (entryText e) : Int) ≤ a
    · rw [if_pos hf]
      obtain ⟨h1, h2⟩ := ih (a - (c (entryText e) : Int)) (by omega)
      refine ⟨?_, h2⟩
      simp only [List.map_append, List.sum_append, h1]
      simp
      ring
    · rw [if_neg hf]
      simpa using ha

theorem selectBlocks_budget (c : List Char → Nat) :
    ∀ (l : List Block) (a : Int), 0 ≤ a →
      (selectBlocks c l a).2
        = a - (((selectBlocks c l a).1).map (fun t => (c t : Int))).sum ∧
      0 ≤ (selectBlocks c l a).2 := by
  intro l
  induction l with
  | nil => intro a ha; simpa [selectBlocks] using ha
  | cons b rest ih =>
    intro a ha
    simp only [selectBlocks]
    by_cases hs : pyStrip b.summary ≠ []
    · rw [if_pos hs]
      by_cases hf : (c (pyStrip b.summary ++ lit "\n\n") : Int) ≤ a
      · rw [if_pos hf]
        obtain ⟨h1, h2⟩ := ih (a - (c (pyStrip b.summary ++ lit "\n\n") : Int)) (by omega)
        refine ⟨?_, h2⟩
        simp only [List.map_append, List.sum_append, h1]
        simp
        ring
      · rw [if_neg hf]
        simpa using ha
    · rw [if_neg hs]
      exact ih a ha

theorem deep_stage_budget (c : List Char → Nat) (j : JsonData) (a : Int)
    (ha : 0 ≤ a) :
    (deep_stage c j a).2
      = a - (if (deep_stage c j a).1 ≠ [] then ((c (deep_stage c j a).1 : Nat) : Int) else 0) ∧
    0 ≤ (deep_stage c j a).2 := by
  unfold deep_stage
  cases j.DeepMemory with
  | none => simpa using ha
  | some dm =>
    dsimp only
    by_cases hg : dm ≠ [] ∧ a > 0
    · rw [if_pos hg]
      by_cases hf : (c (lit "# Ancient History (Major Events):\n" ++ pyStrip dm ++ lit "\n\n") : Int) ≤ a
      · rw [if_pos hf]
        have hne : lit "# Ancient History (Major Events):\n" ++ pyStrip dm ++ lit "\n\n" ≠ [] := by
          intro h
          have := congrArg List.length h
          simp [lit] at this
        refine ⟨?_, by omega⟩
        dsimp only
        rw [if_pos hne]
      · rw [if_neg hf]
        simpa using ha
    · rw [if_neg hg]
      simpa using ha

theorem blocks_stage_budget (c : List Char → Nat) (j : JsonData) (s : Settings)
    (a : Int) (ha : 0 ≤ a) :
    (blocks_stage c j s a).2
      = a - (((blocks_stage c j s a).1).map (fun t => (c t : Int))).sum ∧
    0 ≤ (blocks_stage c j s a).2 := by
  unfold blocks_stage
  by_cases hg : j.TokenizedHistory ≠ [] ∧ a > 0
  · rw [if_pos hg]
    exact selectBlocks_budget c _ a ha
  · rw [if_neg hg]
    simpa using ha

theorem entries_stage_budget (c : List Char → Nat) (j : JsonData)
    (a : Int) (ha : 0 ≤ a) :
    (entries_stage c j a).2
      = a - (((entries_stage c j a).1).map (fun t => (c t : Int))).sum ∧
    0 ≤ (entries_stage c j a).2 := by
  unfold entries_stage
  by_cases hg : j.RecentStory ≠ [] ∧ a > 0
  · rw [if_pos hg]
    exact selectEntries_budget c _ a ha
  · rw [if_neg hg]
    simpa using ha

/-- **C1 (amended)** — `flatten_json_prompt` enforces no margin and leaves the
`# Past Events:` / `# Recent Story:` headers out of the accounting; what does
hold is the greedy invariant: whenever the base and action segments fit
(`available0 ≥ 0`), the per-segment token counts of everything the assembler
includes — base, action, deep-memory section, summary blocks and raw story
entries — sum to at most `SAFE_PROMPT_LIMIT`. -/
theorem flatten_json_prompt_budget (c : List Char → Nat) (j : JsonData)
    (s : Settings) (h : 0 ≤ available0 c j s) :
    ((c (base_prompt j) : Int) + (c (action_text_of j) : Int)
      + (if (deep_stage c j (available0 c j s)).1 ≠ []
          then ((c (deep_stage c j (available0 c j s)).1 : Nat) : Int) else 0)
      + (((blocks_stage c j s (deep_stage c j (available0 c j s)).2).1).map
          (fun t => (c t : Int))).sum
      + (((entries_stage c j
            (blocks_stage c j s (deep_stage c j (available0 c j s)).2).2).1).map
          (fun t => (c t : Int))).sum)
      ≤ s.SAFE_PROMPT_LIMIT := by
  obtain ⟨hd1, hd2⟩ := deep_stage_budget c j (available0 c j s) h
  obtain ⟨hb1, hb2⟩ := blocks_stage_budget c j s _ hd2
  obtain ⟨he1, he2⟩ := entries_stage_budget c j _ hb2
  have hav : available0 c j s
      = s.SAFE_PROMPT_LIMIT - (c (base_prompt j) : Int) - (c (action_text_of j) : Int) := rfl
  omega

/-! ## Tail preservation and whole-segment inclusion -/

theorem selectEntries_tail (c : List Char → Nat) :
    ∀ (l : List (List Char)) (a : Int),
      ∃ k, k ≤ l.length ∧ (selectEntries c l.reverse a).1 = (l.drop k).map entryText := by
  intro l
  induction l using List.reverseRecOn with
  | nil => intro a; exact ⟨0, by simp [selectEntries]⟩
  | append_singleton l e ih =>
    intro a
    rw [List.reverse_append, List.reverse_singleton, List.singleton_append]
    simp only [selectEntries]
    by_cases hf : (c (entryText e) : Int) ≤ a
    · rw [if_pos hf]
      obtain ⟨k, hk, he⟩ := ih (a - (c (entryText e) : Int))
      refine ⟨k, by simp; omega, ?_⟩
      simp only [he]
      rw [List.drop_append_of_le_length hk]
      simp
    · rw [if_neg hf]
      exact ⟨(l ++ [e]).length, le_refl _, by simp⟩

theorem selectBlocks_tail (c : List Char → Nat) :
    ∀ (w : List Block) (a : Int),
      ∃ bs : List Block, List.Sublist bs w ∧
        (selectBlocks c w.reverse a).1 = bs.map blockText := by
  intro w
  induction w using List.reverseRecOn with
  | nil => intro a; exact ⟨[], by simp [selectBlocks]⟩
  | append_singleton w b ih =>
    intro a
    rw [List.reverse_append, List.reverse_singleton, List.singleton_append]
    simp only [selectBlocks]
    by_cases hs : pyStrip b.summary ≠ []
    · rw [if_pos hs]
      by_cases hf : (c (pyStrip b.summary ++ lit "\n\n") : Int) ≤ a
      · rw [if_pos hf]
        obtain ⟨bs, hbs, he⟩ := ih (a - (c (pyStrip b.summary ++ lit "\n\n") : Int))
        refine ⟨bs ++ [b], List.Sublist.append hbs (List.Sublist.refl _), ?_⟩
        simp [he, blockText]
      · rw [if_neg hf]
        exact ⟨[], by simp⟩
    · rw [if_neg hs]
      obtain ⟨bs, hbs, he⟩ := ih a
      exact ⟨bs, hbs.trans (by simp), he⟩

/-- **C3 (confirmed)** — the `# Recent Story:` section contains exactly the
texts of a suffix of `RecentStory` (the `k` newest raw turns for a
budget-determined `k`), whole and in original order; the `# Past Events:`
section contains whole block texts of an order-preserving subsequence of the
candidate window; and the full prompt decomposes into base, deep-memory, past,
recent and action segments in that order. -/
theorem flatten_json_prompt_tail_preservation (c : List Char → Nat)
    (j : JsonData) (s : Settings) :
    ∃ (k : Nat) (bs : List Block),
      k ≤ j.RecentStory.length ∧
      List.Sublist bs (pyTakeLast s.MAX_TOKENIZED_HISTORY_BLOCK j.TokenizedHistory) ∧
      (entries_stage c j (blocks_stage c j s (deep_stage c j (available0 c j s)).2).2).1
        = (j.RecentStory.drop k).map entryText ∧
      (blocks_stage c j s (deep_stage c j (available0 c j s)).2).1
        = bs.map blockText ∧
      flatten_json_prompt c j s
        = base_prompt j ++ (deep_stage c j (available0 c j s)).1
          ++ (if (blocks_stage c j s (deep_stage c j (available0 c j s)).2).1 ≠ []
              then lit "# Past Events:\n"
                ++ ((blocks_stage c j s (deep_stage c j (available0 c j s)).2).1).flatten
              else [])
          ++ (if (entries_stage c j
                  (blocks_stage c j s (deep_stage c j (available0 c j s)).2).2).1 ≠ []
              then lit "# Recent Story:\n"
                ++ ((entries_stage c j
                    (blocks_stage c j s (deep_stage c j (available0 c j s)).2).2).1).flatten
              else [])
          ++ action_text_of j := by
  have hB : ∃ bs : List Block,
      List.Sublist bs (pyTakeLast s.MAX_TOKENIZED_HISTORY_BLOCK j.TokenizedHistory) ∧
      (blocks_stage c j s (deep_stage c j (available0 c j s)).2).1 = bs.map blockText := by
    unfold blocks_stage
    by_cases hg : j.TokenizedHistory ≠ [] ∧ (deep_stage c j (available0 c j s)).2 > 0
    · rw [if_pos hg]
      exact selectBlocks_tail c _ _
    · rw [if_neg hg]
      exact ⟨[], by simp⟩
  have hE : ∃ k : Nat, k ≤ j.RecentStory.length ∧
      (entries_stage c j (blocks_stage c j s (deep_stage c j (available0 c j s)).2).2).1
        = (j.RecentStory.drop k).map entryText := by
    unfold entries_stage
    by_cases hg : j.RecentStory ≠ [] ∧
        (blocks_stage c j s (deep_stage c j (available0 c j s)).2).2 > 0
    · rw [if_pos hg]
      exact selectEntries_tail c _ _
    · rw [if_neg hg]
      exact ⟨j.RecentStory.length, le_refl _, by simp⟩
  obtain ⟨bs, hbs1, hbs2⟩ := hB
  obtain ⟨k, hk1, hk2⟩ := hE
  exact ⟨k, bs, hk1, hbs1, hk2, hbs2, rfl⟩

/-- **C1 (counterexample)** — an input whose base and action segments fit the
budget (`available0 = 7 ≥ 0`, so it is accepted on any reading), yet the
returned prompt counts 188 tokens against `SAFE_PROMPT_LIMIT = 172`: the
`# Recent Story:\n` header is never budgeted and no margin is subtracted, so
the prompt exceeds the limit itself, let alone `limit − 50`. -/
theorem flatten_json_prompt_exceeds_limit :
    0 ≤ available0 List.length exampleJson settingsC1 ∧
    settingsC1.SAFE_PROMPT_LIMIT
      < ((flatten_json_prompt List.length exampleJson settingsC1).length : Int) := by
  decide

/-- Witness for `flatten_json_prompt_budget` at the concrete input. -/
theorem flatten_json_prompt_budget_witness :
    0 ≤ available0 List.length exampleJson settingsC1 ∧
    ((List.length (base_prompt exampleJson) : Int)
      + (List.length (action_text_of exampleJson) : Int)
      + (if (deep_stage List.length exampleJson
              (available0 List.length exampleJson settingsC1)).1 ≠ []
          then ((List.length (deep_stage List.length exampleJson
              (available0 List.length exampleJson settingsC1)).1 : Nat) : Int) else 0)
      + (((blocks_stage List.length exampleJson settingsC1
            (deep_stage List.length exampleJson
              (available0 List.length exampleJson settingsC1)).2).1).map
          (fun t => (List.length t : Int))).sum
      + (((entries_stage List.length exampleJson
            (blocks_stage List.length exampleJson settingsC1
              (deep_stage List.length exampleJson
                (available0 List.length exampleJson settingsC1)).2).2).1).map
          (fun t => (List.length t : Int))).sum)
      ≤ settingsC1.SAFE_PROMPT_LIMIT :=
  ⟨by decide, flatten_json_prompt_budget List.length exampleJson settingsC1 (by decide)⟩

/-- Helper: with a negative remaining budget every optional stage is skipped,
so the assembler returns exactly the base segments followed by the action
block — it never raises an error. -/
theorem flatten_json_prompt_no_failure (c : List Char → Nat) (j : JsonData)
    (s : Settings) (h : available0 c j s < 0) :
    flatten_json_prompt c j s = base_prompt j ++ action_text_of j := by
  have hd : deep_stage c j (available0 c j s) = ([], available0 c j s) := by
    unfold deep_stage
    cases j.DeepMemory with
    | none => rfl
    | some dm =>
      dsimp only
      rw [if_neg]
      rintro ⟨-, h2⟩
      omega
  have hb : blocks_stage c j s (available0 c j s) = ([], available0 c j s) := by
    unfold blocks_stage
    rw [if_neg]
    rintro ⟨-, h2⟩
    omega
  have he : entries_stage c j (available0 c j s) = ([], available0 c j s) := by
    unfold entries_stage
    rw [if_neg]
    rintro ⟨-, h2⟩
    omega
  unfold flatten_json_prompt
  simp only [hd, hb, he]
  simp

/-- **C2 (amended)** — there is no `PromptTooLarge` failure path: when the
non-trimmable base and action segments already exceed `SAFE_PROMPT_LIMIT`
(`available0 < 0`), `flatten_json_prompt` still returns normally with exactly
those segments as the prompt, and `generate_from_game` hands that over-budget
prompt to the generator retry loop anyway. -/
theorem generate_from_game_no_prompt_guard (c : List Char → Nat)
    (gen : List Char → Nat → List Char) (s : Settings)
    (r : GenerateFromGameRequest)
    (h : available0 c (structured_json s r) s < 0) :
    generate_from_game c gen s r
      = (base_prompt (structured_json s r) ++ action_text_of (structured_json s r),
         pyStrip (genAttempts gen
           (base_prompt (structured_json s r) ++ action_text_of (structured_json s r))
           s.STOP_TOKENS r.story_splitter ((List.range 15).map (· + 1)) [])) := by
  unfold generate_from_game
  simp only [flatten_json_prompt_no_failure c _ s h]

/-- **C2 (counterexample)** — with a zero budget the required segments exceed
the limit (`available0 = -144 < 0`), yet no error occurs: the assembler
returns the base+action prompt and the model is called on it (its output
`"STORY"` becomes the returned story). -/
theorem generate_from_game_called_despite_over_budget :
    available0 List.length (structured_json settingsC2 exampleReq) settingsC2 < 0 ∧
    generate_from_game List.length (fun _ _ => lit "STORY") settingsC2 exampleReq
      = (base_prompt (structured_json settingsC2 exampleReq)
          ++ action_text_of (structured_json settingsC2 exampleReq), lit "STORY") := by
  decide

/-- Witness for `generate_from_game_no_prompt_guard` at the concrete input. -/
theorem generate_from_game_no_prompt_guard_witness :
    available0 List.length (structured_json settingsC2 exampleReq) settingsC2 < 0 ∧
    generate_from_game List.length (fun _ _ => lit "TALE") settingsC2 exampleReq
      = (base_prompt (structured_json settingsC2 exampleReq)
          ++ action_text_of (structured_json settingsC2 exampleReq),
         pyStrip (genAttempts (fun _ _ => lit "TALE")
           (base_prompt (structured_json settingsC2 exampleReq)
             ++ action_text_of (structured_json settingsC2 exampleReq))
           settingsC2.STOP_TOKENS exampleReq.story_splitter
           ((List.range 15).map (· + 1)) [])) :=
  ⟨by decide,
   generate_from_game_no_prompt_guard List.length (fun _ _ => lit "TALE")
     settingsC2 exampleReq (by decide)⟩

/-! ## Sanitizer idempotence analysis -/

theorem isPrefixOf_exists {p l : List Char} (h : p.isPrefixOf l = true) :
    ∃ t, l = p ++ t := by
  induction p generalizing l with
  | nil => exact ⟨l, rfl⟩
  | cons c cs ih =>
    cases l with
    | nil => simp [List.isPrefixOf] at h
    | cons d ds =>
      simp only [List.isPrefixOf, Bool.and_eq_true, beq_iff_eq] at h
      obtain ⟨t, ht⟩ := ih h.2
      exact ⟨t, by simp [h.1, ht]⟩

theorem exists_isPrefixOf (p t : List Char) : p.isPrefixOf (p ++ t) = true := by
  induction p with
  | nil => simp [List.isPrefixOf]
  | cons c cs ih => simpa [List.isPrefixOf] using ih

theorem occursIn_exists {pat s : List Char} (h : occursIn pat s = true) :
    ∃ a b, s = a ++ pat ++ b := by
  induction s with
  | nil =>
    simp only [occursIn] at h
    obtain ⟨t, ht⟩ := isPrefixOf_exists h
    rcases List.append_eq_nil.mp ht.symm with ⟨h1, h2⟩
    exact ⟨[], [], by simp [h1, h2]⟩
  | cons c rest ih =>
    simp only [occursIn, Bool.or_eq_true] at h
    cases h with
    | inl h =>
      obtain ⟨t, ht⟩ := isPrefixOf_exists h
      exact ⟨[], t, by simp [ht]⟩
    | inr h =>
      obtain ⟨a, b, hab⟩ := ih h
      exact ⟨c :: a, b, by simp [hab]⟩

theorem occursIn_of_isPrefixOf {pat s : List Char}
    (h : pat.isPrefixOf s = true) : occursIn pat s = true := by
  cases s with
  | nil => simpa [occursIn] using h
  | cons c rest => simp [occursIn, h]

theorem exists_occursIn (pat a b : List Char) :
    occursIn pat (a ++ (pat ++ b)) = true := by
  induction a with
  | nil => exact occursIn_of_isPrefixOf (exists_isPrefixOf pat b)
  | cons c a' ih => simp [occursIn, ih]

theorem occursIn_pyStrip_false {pat s : List Char}
    (h : occursIn pat s = false) : occursIn pat (pyStrip s) = false := by
  by_contra hc
  have ht : occursIn pat (pyStrip s) = true := by
    cases hx : occursIn pat (pyStrip s) with
    | false => exact absurd hx hc
    | true => rfl
  obtain ⟨a, b, hab⟩ := occursIn_exists ht
  obtain ⟨u, v, huv⟩ := pyStrip_infix s
  rw [hab] at huv
  have : occursIn pat s = true := by
    rw [← huv]
    have : u ++ (a ++ pat ++ b) ++ v = (u ++ a) ++ (pat ++ (b ++ v)) := by simp
    rw [this]
    exact exists_occursIn pat (u ++ a) (b ++ v)
  rw [this] at h
  exact absurd h (by simp)

theorem matchCI_suffix :
    ∀ {pre s r : List Char}, matchCI pre s = some r → ∃ w, w ++ r = s := by
  intro pre
  induction pre with
  | nil =>
    intro s r h
    simp only [matchCI, Option.some.injEq] at h
    exact ⟨[], by simp [h]⟩
  | cons c cs ih =>
    intro s r h
    cases s with
    | nil => simp [matchCI] at h
    | cons d ds =>
      simp only [matchCI] at h
      split at h
      · obtain ⟨w, hw⟩ := ih h
        exact ⟨d :: w, by simp [hw]⟩
      · exact absurd h (by simp)

theorem tryNumColon_none {s : List Char}
    (h : ∀ ch ∈ s, ch.isDigit = false) : tryNumColon s = none := by
  have htw : s.takeWhile Char.isDigit = [] := by
    cases s with
    | nil => rfl
    | cons c t => simp [List.takeWhile_cons, h c (by simp)]
  simp [tryNumColon, htw]

theorem mem_dropWhile_of_mem {p : Char → Bool} {l : List Char} {ch : Char}
    (h : ch ∈ l.dropWhile p) : ch ∈ l := by
  obtain ⟨w, hw⟩ := dropWhile_suffix p l
  rw [← hw]
  exact List.mem_append_right w h

theorem tryA_none {s : List Char}
    (h : ∀ ch ∈ s, ch.isDigit = false) : tryA s = none := by
  unfold tryA
  cases hm : matchCI (lit "chapter") (s.dropWhile isPySpace) with
  | none => rfl
  | some r2 =>
    have hr2 : ∀ ch ∈ r2, ch.isDigit = false := by
      intro ch hc
      obtain ⟨w, hw⟩ := matchCI_suffix hm
      exact h ch (mem_dropWhile_of_mem (by rw [← hw]; exact List.mem_append_right w hc))
    dsimp only
    by_cases hw : r2.takeWhile isPySpace = []
    · simp [hw]
    · rw [if_neg hw]
      rw [tryNumColon_none (fun ch hc => hr2 ch (mem_dropWhile_of_mem hc))]

theorem tryB_none {s : List Char}
    (h : ∀ ch ∈ s, ch.isDigit = false) : tryB s = none := by
  unfold tryB
  rw [tryNumColon_none (fun ch hc => h ch (mem_dropWhile_of_mem hc))]

theorem tryC_none {s : List Char}
    (h : ∀ ch ∈ s, ch.isDigit = false) : tryC s = none := by
  unfold tryC
  cases hm : matchCI (lit "chapter") (s.dropWhile isPySpace) with
  | none => rfl
  | some r2 =>
    have hr2 : ∀ ch ∈ r2, ch.isDigit = false := by
      intro ch hc
      obtain ⟨w, hw⟩ := matchCI_suffix hm
      exact h ch (mem_dropWhile_of_mem (by rw [← hw]; exact List.mem_append_right w hc))
    dsimp only
    by_cases hw : r2.takeWhile isPySpace = []
    · simp [hw]
    · rw [if_neg hw]
      rw [tryNumColon_none (fun ch hc => hr2 ch (mem_dropWhile_of_mem hc))]

theorem tryD_none {s : List Char}
    (h : ∀ ch ∈ s, ch.isDigit = false) : tryD s = none := by
  unfold tryD
  rw [tryNumColon_none (fun ch hc => h ch (mem_dropWhile_of_mem hc))]

theorem tryE_none {s : List Char} (h : ∀ ch ∈ s, ch ≠ '#') : tryE s = none := by
  cases s with
  | nil => rfl
  | cons c rest =>
    have hc : c ≠ '#' := h c (by simp)
    simp only [tryE]
    split
    · rename_i r1 heq
      cases heq
      exact absurd rfl hc
    · rfl

theorem subScanLines_id (tm : List Char → Option (List Char)) (P : Char → Bool)
    (htm : ∀ s, (∀ ch ∈ s, P ch = false) → tm s = none) :
    ∀ (n : Nat) (flag : Bool) (s : List Char), (∀ ch ∈ s, P ch = false) →
      subScanLines tm n flag s = s := by
  intro n
  induction n with
  | zero => intro flag s _; rfl
  | succ n ih =>
    intro flag s hs
    cases s with
    | nil => rfl
    | cons c rest =>
      have hrest : ∀ ch ∈ rest, P ch = false :=
        fun ch hm => hs ch (List.mem_cons_of_mem _ hm)
      cases flag with
      | false => simp [subScanLines, ih _ rest hrest]
      | true => simp [subScanLines, htm _ hs, ih _ rest hrest]

theorem subScanAll_id (tm : List Char → Option (List Char)) (P : Char → Bool)
    (htm : ∀ s, (∀ ch ∈ s, P ch = false) → tm s = none) :
    ∀ (n : Nat) (s : List Char), (∀ ch ∈ s, P ch = false) →
      subScanAll tm n s = s := by
  intro n
  induction n with
  | zero => intro s _; rfl
  | succ n ih =>
    intro s hs
    cases s with
    | nil => rfl
    | cons c rest =>
      have hrest : ∀ ch ∈ rest, P ch = false :=
        fun ch hm => hs ch (List.mem_cons_of_mem _ hm)
      simp [subScanAll, htm _ hs, ih rest hrest]

theorem stopTokenPass_id (stops : List (List Char)) (u : List Char)
    (h : ∀ tok ∈ stops, tok.isPrefixOf (pyStrip u) = false) :
    stopTokenPass stops u = u := by
  unfold stopTokenPass
  induction stops with
  | nil => rfl
  | cons tok rest ih =>
    simp only [List.foldl_cons]
    rw [if_neg (by simp [h tok (by simp)])]
    exact ih (fun tk hm => h tk (List.mem_cons_of_mem _ hm))

/-- **C9 (amended)** — sanitization is a fixed point on outputs that contain
no digit and no `'#'`, do not contain the story splitter, and do not start
with any stop token; in general it is not idempotent, because stop-token
prefix removal strips at most one occurrence of each stop token per pass. -/
theorem sanitize_idempotent_under (stops : List (List Char))
    (splitter t : List Char)
    (hstop : ∀ tok ∈ stops, tok.isPrefixOf (pyStrip (sanitize stops splitter t)) = false)
    (hdigit : ∀ ch ∈ sanitize stops splitter t, ch.isDigit = false)
    (hhash : ∀ ch ∈ sanitize stops splitter t, ch ≠ '#')
    (hsplit : occursIn splitter (sanitize stops splitter t) = false) :
    sanitize stops splitter (sanitize stops splitter t) = sanitize stops splitter t := by
  have hstrip : pyStrip (sanitize stops splitter t) = sanitize stops splitter t := by
    show pyStrip (pyStrip _) = _
    rw [pyStrip_idem]
    rfl
  conv_lhs => rw [sanitize]
  rw [stopTokenPass_id _ _ hstop]
  rw [show subA (sanitize stops splitter t) = sanitize stops splitter t from
    subScanLines_id tryA Char.isDigit (fun _ hh => tryA_none hh) _ _ _ hdigit]
  rw [show subB (sanitize stops splitter t) = sanitize stops splitter t from
    subScanLines_id tryB Char.isDigit (fun _ hh => tryB_none hh) _ _ _ hdigit]
  rw [show subC (sanitize stops splitter t) = sanitize stops splitter t by
    unfold subC subOnce; rw [tryC_none hdigit]]
  rw [show subD (sanitize stops splitter t) = sanitize stops splitter t by
    unfold subD subOnce; rw [tryD_none hdigit]]
  rw [show splitterPass splitter (sanitize stops splitter t) = sanitize stops splitter t by
    unfold splitterPass; rw [if_neg (by simp [hsplit])]]
  rw [show subE (sanitize stops splitter t) = sanitize stops splitter t from
    subScanAll_id tryE (fun ch => ch = '#')
      (fun _ hh => tryE_none (fun ch hc => by simpa using hh ch hc)) _ _
      (fun ch hc => by simpa using hhash ch hc)]
  exact hstrip

/-- **C9 (counterexample)** — with stop-token list `["A"]` and splitter
`"XY"`, sanitizing `"AAhello"` yields `"Ahello"`, and sanitizing that again
yields `"hello"`: the sanitizer is not idempotent. -/
theorem sanitize_not_idempotent :
    sanitize [lit "A"] (lit "XY") (sanitize [lit "A"] (lit "XY") (lit "AAhello"))
      ≠ sanitize [lit "A"] (lit "XY") (lit "AAhello") := by
  decide

/-- Witness for `sanitize_idempotent_under` at a concrete input. -/
theorem sanitize_idempotent_under_witness :
    sanitize [lit "A"] (lit "XY") (sanitize [lit "A"] (lit "XY") (lit "hello there"))
      = sanitize [lit "A"] (lit "XY") (lit "hello there") :=
  sanitize_idempotent_under [lit "A"] (lit "XY") (lit "hello there")
    (by decide) (by decide) (by decide) (by decide)

/-! ## Summarization-prompt analysis -/

theorem afterFirst_none_iff (pat : List Char) :
    ∀ s : List Char, afterFirst pat s = none ↔ occursIn pat s = false := by
  intro s
  induction s with
  | nil =>
    simp only [afterFirst, occursIn]
    by_cases h : pat.isPrefixOf [] = true
    · simp [h]
    · have h' : pat.isPrefixOf [] = false := by
        cases hx : pat.isPrefixOf [] with
        | false => rfl
        | true => exact absurd hx h
      simp [h']
  | cons c rest ih =>
    simp only [afterFirst, occursIn]
    by_cases h : pat.isPrefixOf (c :: rest) = true
    · simp [h]
    · have h' : pat.isPrefixOf (c :: rest) = false := by
        cases hx : pat.isPrefixOf (c :: rest) with
        | false => rfl
        | true => exact absurd hx h
      simp [h', ih]

theorem lastAfterF_stable {pat r : List Char} (h : afterFirst pat r = none) :
    ∀ n, lastAfterF pat n r = r := by
  intro n
  cases n with
  | zero => rfl
  | succ n =>
    simp only [lastAfterF]
    by_cases hp : pat = []
    · simp [hp]
    · simp [hp, h]

theorem lastAfterF_no_occurs {pat : List Char} (hp : pat ≠ []) :
    ∀ (n : Nat) (s : List Char), s.length < n →
      occursIn pat (lastAfterF pat n s) = false := by
  intro n
  induction n with
  | zero => intro s hs; omega
  | succ n ih =>
    intro s hs
    simp only [lastAfterF]
    rw [if_neg hp]
    cases ha : afterFirst pat s with
    | none => exact (afterFirst_none_iff pat s).mp ha
    | some r =>
      have hlen := afterFirst_length hp ha
      exact ih r (by omega)

theorem lastAfter_no_occurs {pat : List Char} (hp : pat ≠ []) (s : List Char) :
    occursIn pat (lastAfter pat s) = false :=
  lastAfterF_no_occurs hp (s.length + 1) s (by omega)

theorem afterFirst_decomp {pat : List Char} :
    ∀ {s r : List Char}, afterFirst pat s = some r → ∃ a, s = a ++ pat ++ r := by
  intro s
  induction s with
  | nil =>
    intro r h
    simp only [afterFirst] at h
    split at h
    · rename_i hpre
      obtain ⟨t, ht⟩ := isPrefixOf_exists hpre
      rcases List.append_eq_nil.mp ht.symm with ⟨h1, h2⟩
      cases h
      refine ⟨[], by simp [h1]⟩
    · exact absurd h (by simp)
  | cons c rest ih =>
    intro r h
    simp only [afterFirst] at h
    split at h
    · rename_i hpre
      obtain ⟨t, ht⟩ := isPrefixOf_exists hpre
      cases h
      refine ⟨[], ?_⟩
      rw [List.nil_append]
      conv_lhs => rw [ht]
      rw [ht, List.drop_left]
    · obtain ⟨a, ha⟩ := ih h
      exact ⟨c :: a, by simp [ha]⟩

theorem lastAfterF_decomp {pat : List Char} (hp : pat ≠ []) :
    ∀ (n : Nat) (s : List Char), s.length < n → occursIn pat s = true →
      ∃ a, s = a ++ pat ++ lastAfterF pat n s := by
  intro n
  induction n with
  | zero => intro s hs; omega
  | succ n ih =>
    intro s hs ho
    simp only [lastAfterF]
    rw [if_neg hp]
    cases ha : afterFirst pat s with
    | none =>
      rw [(afterFirst_none_iff pat s).mp ha] at ho
      exact absurd ho (by simp)
    | some r =>
      dsimp only
      have hlen := afterFirst_length hp ha
      obtain ⟨a, hd⟩ := afterFirst_decomp ha
      by_cases hor : occursIn pat r = true
      · obtain ⟨a', hd'⟩ := ih r (by omega) hor
        refine ⟨a ++ pat ++ a', ?_⟩
        rw [hd]
        conv_lhs => rw [hd']
        simp
      · have : afterFirst pat r = none := by
          rw [afterFirst_none_iff]
          cases hx : occursIn pat r with
          | false => rfl
          | true => exact absurd hx hor
        rw [lastAfterF_stable this]
        exact ⟨a, hd⟩

theorem lastAfter_decomp {pat : List Char} (hp : pat ≠ []) {s : List Char}
    (ho : occursIn pat s = true) : ∃ a, s = a ++ pat ++ lastAfter pat s :=
  lastAfterF_decomp hp (s.length + 1) s (by omega) ho

theorem stripSummaryResponse_no_marker {marker : List Char} (hm : marker ≠ [])
    (resp : List Char) :
    occursIn marker (stripSummaryResponse marker resp) = false := by
  unfold stripSummaryResponse
  by_cases ho : occursIn marker resp = true
  · rw [if_pos (by simp [ho])]
    exact occursIn_pyStrip_false (lastAfter_no_occurs hm resp)
  · rw [if_neg (by simpa using ho)]
    refine occursIn_pyStrip_false ?_
    cases hx : occursIn marker resp with
    | false => rfl
    | true => exact absurd hx ho

theorem selectWholeParts_take (c : List Char → Nat) :
    ∀ (l : List (List Char)) (a : Int),
      ∃ k, selectWholeParts c a l = (l.take k).map chunkEntryText := by
  intro l
  induction l with
  | nil => intro a; exact ⟨0, rfl⟩
  | cons e rest ih =>
    intro a
    simp only [selectWholeParts]
    by_cases hf : (c (chunkEntryText e) : Int) ≤ a
    · rw [if_pos hf]
      obtain ⟨k, hk⟩ := ih (a - (c (chunkEntryText e) : Int))
      exact ⟨k + 1, by simp [hk]⟩
    · rw [if_neg hf]
      exact ⟨0, rfl⟩

/-- **C7 (amended)** — the summarization prompt is the fixed compression-rules
header, then chunk entries added whole *in the given oldest-to-newest order*
(not newest-to-oldest) while each fits, stopping at the first that does not
fit — except that when the very first entry does not fit, a word-by-word
truncated prefix of it is included; then the footer with the split marker.
The response is stripped of everything up to and including the last marker
occurrence. -/
theorem summarize_chunk_amended (c : List Char → Nat)
    (gen : List Char → List Char) (s : Settings) (chunk : List (List Char))
    (mt : Nat) :
    summarize_chunk_prompt c s chunk mt
      = summarize_header
        ++ (chunkParts c (s.SAFE_PROMPT_LIMIT - (c summarize_header : Int)
              - (c (summarize_footer s) : Int) - (mt : Int)) chunk).flatten
        ++ summarize_footer s
    ∧ (∀ e rest, chunk = e :: rest →
        (c (chunkEntryText e) : Int)
            ≤ s.SAFE_PROMPT_LIMIT - (c summarize_header : Int)
              - (c (summarize_footer s) : Int) - (mt : Int) →
        ∃ k, chunkParts c (s.SAFE_PROMPT_LIMIT - (c summarize_header : Int)
              - (c (summarize_footer s) : Int) - (mt : Int)) chunk
            = (chunk.take k).map chunkEntryText)
    ∧ (s.SUMMARY_SPLIT_MARKER ≠ [] →
        occursIn s.SUMMARY_SPLIT_MARKER (summarize_chunk c gen s chunk mt) = false)
    ∧ (s.SUMMARY_SPLIT_MARKER ≠ [] →
        occursIn s.SUMMARY_SPLIT_MARKER (gen (summarize_chunk_prompt c s chunk mt)) = true →
        ∃ a, gen (summarize_chunk_prompt c s chunk mt)
            = a ++ s.SUMMARY_SPLIT_MARKER
              ++ lastAfter s.SUMMARY_SPLIT_MARKER (gen (summarize_chunk_prompt c s chunk mt))
          ∧ summarize_chunk c gen s chunk mt
            = pyStrip (lastAfter s.SUMMARY_SPLIT_MARKER
                (gen (summarize_chunk_prompt c s chunk mt)))) := by
  refine ⟨rfl, ?_, ?_, ?_⟩
  · intro e rest hch hfit
    subst hch
    simp only [chunkParts]
    rw [if_pos hfit]
    obtain ⟨k, hk⟩ :=
      selectWholeParts_take c rest
        (s.SAFE_PROMPT_LIMIT - (c summarize_header : Int)
          - (c (summarize_footer s) : Int) - (mt : Int) - (c (chunkEntryText e) : Int))
    exact ⟨k + 1, by simp [hk]⟩
  · intro hm
    exact stripSummaryResponse_no_marker hm _
  · intro hm ho
    obtain ⟨a, ha⟩ := lastAfter_decomp hm ho
    refine ⟨a, ha, ?_⟩
    unfold summarize_chunk stripSummaryResponse
    rw [if_pos (by simp [ho])]

/-- Settings for the summarization counterexample: marker `"M"`, a limit that
leaves exactly 10 budget tokens for chunk content under a one-token-per-
character tokenizer and `max_tokens = 0`. -/
def settingsC7 : Settings :=
  { SAFE_PROMPT_LIMIT := (summarize_header.length : Int) + 4 + 10,
    SUMMARY_SPLIT_MARKER := lit "M" }

/-- **C7 (counterexample)** — with 10 budget tokens and entries
`["aaaaa", "bbbbb"]` (each 6 tokens with its newline), the prompt contains the
*oldest* entry and omits the newest even though the newest alone fits: the
loop runs in given order, not newest-to-oldest.  And a first entry that does
not fit is word-truncated into the prompt (`"ab cd"` with budget 3 yields
`"ab...\n"`), contradicting never-truncated. -/
theorem summarize_chunk_prompt_not_newest_first :
    chunkParts List.length 10 [lit "aaaaa", lit "bbbbb"] = [lit "aaaaa\n"] ∧
    (List.length (chunkEntryText (lit "bbbbb")) : Int) ≤ 10 ∧
    chunkParts List.length 3 [lit "ab cd"] = [lit "ab...\n"] ∧
    summarize_chunk_prompt List.length settingsC7 [lit "aaaaa", lit "bbbbb"] 0
      = summarize_header ++ lit "aaaaa\n" ++ summarize_footer settingsC7 := by
  decide

/-- Witness for `summarize_chunk_amended` at a concrete input. -/
theorem summarize_chunk_amended_witness :
    (∃ k, chunkParts List.length
        (settingsC7.SAFE_PROMPT_LIMIT
          - (List.length summarize_header : Int)
          - (List.length (summarize_footer settingsC7) : Int) - ((0 : Nat) : Int))
        [lit "aa", lit "bb"]
        = (([lit "aa", lit "bb"]).take k).map chunkEntryText) ∧
    occursIn (lit "M")
      (summarize_chunk List.length (fun p => p ++ lit " out") settingsC7
        [lit "aa", lit "bb"] 0) = false :=
  ⟨(summarize_chunk_amended List.length (fun p => p ++ lit " out") settingsC7
      [lit "aa", lit "bb"] 0).2.1 (lit "aa") [lit "bb"] rfl (by decide),
   (summarize_chunk_amended List.length (fun p => p ++ lit " out") settingsC7
      [lit "aa", lit "bb"] 0).2.2.1 (by decide)⟩

/-! ## Query-term extraction and section selection (C8) -/

/-- **C8 (amended)** — on the fully quoted query `"physical appearance"` the
extractor returns only `["physicalappearance"]`: quoted phrases are removed
from the text before unquoted-word splitting, so the phrase's words are never
added separately.  That term is a substring of no title in
`{Appearance, Personality, Trivia}`, so section selection falls back to the
first `max_sections` sections and returns all three, not just `Appearance`. -/
theorem extract_query_terms_quoted_only :
    extract_query_terms (lit "\"physical appearance\"")
      = [lit "physicalappearance"] ∧
    select_sections
      [(lit "Appearance", lit "a"), (lit "Personality", lit "b"),
       (lit "Trivia", lit "c")]
      (extract_query_terms (lit "\"physical appearance\"")) 3
      = [(lit "Appearance", lit "a"), (lit "Personality", lit "b"),
         (lit "Trivia", lit "c")] := by
  decide

/-- **C8 (counterexample)** — the claimed term list
`["physicalappearance", "physical", "appearance"]` and the claimed single
selected section `Appearance` are both wrong on the code. -/
theorem extract_query_terms_claim_false :
    extract_query_terms (lit "\"physical appearance\"")
        ≠ [lit "physicalappearance", lit "physical", lit "appearance"] ∧
    select_sections
      [(lit "Appearance", lit "a"), (lit "Personality", lit "b"),
       (lit "Trivia", lit "c")]
      (extract_query_terms (lit "\"physical appearance\"")) 3
        ≠ [(lit "Appearance", lit "a")] := by
  decide

/-! ## Lore describer blank-query failure (C10) -/

/-- **C10 (confirmed)** — whenever `command_prompt` is `None` or blank,
`describe_entity_ai` raises `NameError` (the fallback references the
undefined variable `name`) before the model call; consequently an `ok`
result — the only path that reaches the model — requires a non-blank
`command_prompt`. -/
theorem describe_entity_ai_blank_command_prompt (c : List Char → Nat)
    (settings : Settings) (collected : List (Int × List Char))
    (command_prompt meta_data prompt_instruction : Option (List Char)) :
    ((command_prompt = none ∨ ∃ s, command_prompt = some s ∧ pyStrip s = []) →
      describe_entity_ai c settings collected command_prompt meta_data
          prompt_instruction = Except.error PyError.nameError) ∧
    (∀ chunk, describe_entity_ai c settings collected command_prompt meta_data
          prompt_instruction = Except.ok chunk →
      ∃ s, command_prompt = some s ∧ pyStrip s ≠ []) := by
  constructor
  · intro hblank
    unfold describe_entity_ai
    rcases hblank with h | ⟨s, hs, hstr⟩
    · subst h; rfl
    · subst hs
      simp [hstr]
  · intro chunk hok
    unfold describe_entity_ai at hok
    cases hcp : command_prompt with
    | none => rw [hcp] at hok; simp at hok
    | some s =>
      rw [hcp] at hok
      by_cases hstr : pyStrip s = []
      · simp [hstr] at hok
      · exact ⟨s, rfl, hstr⟩

/-- Witness for `describe_entity_ai_blank_command_prompt`: a blank
`command_prompt` at concrete inputs yields the `NameError`. -/
theorem describe_entity_ai_blank_command_prompt_witness :
    describe_entity_ai List.length { SAFE_PROMPT_LIMIT := 3900 }
        [(4, lit "excerpt (Source: u)")] (some (lit "   ")) none none
      = Except.error PyError.nameError :=
  (describe_entity_ai_blank_command_prompt List.length
      { SAFE_PROMPT_LIMIT := 3900 } [(4, lit "excerpt (Source: u)")]
      (some (lit "   ")) none none).1
    (Or.inr ⟨lit "   ", rfl, by decide⟩)

/-! ## Deletion consistency (C6) -/

theorem not_mem_erase_self {a : Nat} :
    ∀ {l : List Nat}, l.Nodup → a ∉ l.erase a := by
  intro l
  induction l with
  | nil => intro _ h; simp [List.erase] at h
  | cons b t ih =>
    intro hnd hmem
    rw [List.erase_cons] at hmem
    rcases List.nodup_cons.mp hnd with ⟨hb, ht⟩
    by_cases hba : b = a
    · rw [if_pos (by simp [hba])] at hmem
      exact hb (hba ▸ hmem)
    · rw [if_neg (by simp [hba])] at hmem
      rcases List.mem_cons.mp hmem with h | h
      · exact hba h.symm
      · exact ih ht h

/-- **C6 (confirmed)** — after deleting raw entry `R` (assuming the standing
invariants that reference lists are duplicate-free and nonempty): no remaining
chunk — in particular no Active chunk — has `R` in its references, none is
left with empty references (a chunk whose references become empty is deleted),
the deep memory is untouched, and the raw entry itself is gone. -/
theorem delete_history_entry_consistency (history_id : Nat) (st : GameState)
    (hmem : ∃ e ∈ st.history, e.id = history_id)
    (hnodup : ∀ ch ∈ st.chunks, ch.history_references.Nodup)
    (hne : ∀ ch ∈ st.chunks, ch.history_references ≠ []) :
    ∃ st', delete_history_entry history_id st = some st' ∧
      (∀ ch ∈ st'.chunks,
        history_id ∉ ch.history_references ∧ ch.history_references ≠ []) ∧
      st'.deep = st.deep ∧
      (∀ e ∈ st'.history, e.id ≠ history_id) := by
  obtain ⟨e0, he0, hid⟩ := hmem
  have hf : ∃ x, st.history.find? (fun h => h.id = history_id) = some x := by
    cases hfind : st.history.find? (fun h => h.id = history_id) with
    | some x => exact ⟨x, rfl⟩
    | none =>
      have := List.find?_eq_none.mp hfind e0 he0
      simp [hid] at this
  obtain ⟨x, hx⟩ := hf
  unfold delete_history_entry
  rw [hx]
  refine ⟨_, rfl, ?_, rfl, ?_⟩
  · intro ch hch
    rw [List.mem_filterMap] at hch
    obtain ⟨ch0, hch0, hf0⟩ := hch
    dsimp only at hf0
    have h1 : ch0.history_references ≠ [] := hne ch0 hch0
    rw [if_pos h1] at hf0
    by_cases h2 : ch0.history_references.contains history_id = true
    · rw [if_pos h2] at hf0
      by_cases h3 : ch0.history_references.erase history_id = []
      · rw [if_pos h3] at hf0
        exact absurd hf0 (by simp)
      · rw [if_neg h3] at hf0
        cases hf0
        exact ⟨not_mem_erase_self (hnodup ch0 hch0), h3⟩
    · rw [if_neg h2] at hf0
      cases hf0
      refine ⟨?_, h1⟩
      intro hmem2
      exact h2 (List.elem_eq_true_of_mem hmem2)
  · intro e he
    have := List.of_mem_filter he
    simpa using this

/-- Witness for `delete_history_entry_consistency` at the concrete state. -/
theorem delete_history_entry_consistency_witness :
    ∃ st', delete_history_entry 1 stC6 = some st' ∧
      (∀ ch ∈ st'.chunks,
        1 ∉ ch.history_references ∧ ch.history_references ≠ []) ∧
      st'.deep = stC6.deep ∧
      (∀ e ∈ st'.history, e.id ≠ 1) :=
  delete_history_entry_consistency 1 stC6
    ⟨{ id := 1, entry_index := 0, text := lit "a", token_count := 3,
       is_tokenized := true }, by decide, rfl⟩
    (by decide) (by decide)

/-! ## Deep-memory compaction (C5) -/

theorem le_getLast_of_sorted :
    ∀ (l : List TokenizedHistory)
      (_ : l.Pairwise (fun a b => a.end_index ≤ b.end_index)) (h : l ≠ []),
      ∀ x ∈ l, x.end_index ≤ (l.getLast h).end_index := by
  intro l
  induction l with
  | nil => intro _ h; exact absurd rfl h
  | cons a t ih =>
    intro hp h x hx
    cases t with
    | nil =>
      rcases List.mem_singleton.mp hx with rfl
      simp [List.getLast]
    | cons b u =>
      rw [List.getLast_cons (by simp)]
      rcases List.mem_cons.mp hx with rfl | hx'
      · have hrel := List.pairwise_cons.mp hp
        exact le_trans (hrel.1 _ (List.getLast_mem (by simp)))
          (le_refl _)
      · exact ih (List.pairwise_cons.mp hp).2 (by simp) x hx'

theorem filter_markFirstActive :
    ∀ (n : Nat) (l : List TokenizedHistory),
      (markFirstActive n l).filter (fun ch => !ch.is_tokenized)
        = (l.filter (fun ch => !ch.is_tokenized)).drop n := by
  intro n l
  induction l generalizing n with
  | nil => cases n <;> simp [markFirstActive]
  | cons ch rest ih =>
    cases n with
    | zero => simp [markFirstActive]
    | succ n =>
      by_cases ht : ch.is_tokenized
      · have : markFirstActive (n + 1) (ch :: rest)
            = ch :: markFirstActive (n + 1) rest := by
          simp [markFirstActive, ht]
        rw [this]
        simp [List.filter_cons, ht, ih (n + 1)]
      · have : markFirstActive (n + 1) (ch :: rest)
            = { ch with is_tokenized := true } :: markFirstActive n rest := by
          simp [markFirstActive, ht]
        rw [this]
        simp [List.filter_cons, ht, ih n]

/-- **C5 (confirmed)** — when the Active chunk count exceeds the limit,
exactly `excess = count − limit + 2` of the oldest Active chunks are selected
and marked; the deep memory's `chunks_merged` grows by `excess` (or is created
at `excess`), its `last_merged_end_index` is the maximum `end_index` among the
selected chunks, and the remaining Active chunks are exactly all but the
`excess` oldest. -/
theorem compress_old_chunks_spec
    (Scomp : List (List Char) → Nat → List Char × Nat)
    (MAXB DMAX : Nat) (st : GameState)
    (hmax : 2 ≤ MAXB)
    (hcount : MAXB < ((st.chunks.filter (fun ch => !ch.is_tokenized)).length))
    (hsorted : st.chunks.Pairwise (fun a b => a.end_index ≤ b.end_index)) :
    ∃ d : DeepMemory,
      (compress_old_chunks_to_deep_memory Scomp MAXB DMAX st).deep = some d ∧
      ((st.chunks.filter (fun ch => !ch.is_tokenized)).take
          ((st.chunks.filter (fun ch => !ch.is_tokenized)).length - MAXB + 2)).length
        = (st.chunks.filter (fun ch => !ch.is_tokenized)).length - MAXB + 2 ∧
      d.chunks_merged
        = (match st.deep with | some d0 => d0.chunks_merged | none => 0)
          + ((st.chunks.filter (fun ch => !ch.is_tokenized)).length - MAXB + 2) ∧
      (∀ ch ∈ (st.chunks.filter (fun ch => !ch.is_tokenized)).take
          ((st.chunks.filter (fun ch => !ch.is_tokenized)).length - MAXB + 2),
        ch.end_index ≤ d.last_merged_end_index) ∧
      (∃ ch ∈ (st.chunks.filter (fun ch => !ch.is_tokenized)).take
          ((st.chunks.filter (fun ch => !ch.is_tokenized)).length - MAXB + 2),
        ch.end_index = d.last_merged_end_index) ∧
      ((compress_old_chunks_to_deep_memory Scomp MAXB DMAX st).chunks.filter
          (fun ch => !ch.is_tokenized))
        = (st.chunks.filter (fun ch => !ch.is_tokenized)).drop
            ((st.chunks.filter (fun ch => !ch.is_tokenized)).length - MAXB + 2) := by
  have hsorted_active :
      (st.chunks.filter (fun ch => !ch.is_tokenized)).Pairwise
        (fun a b => a.end_index ≤ b.end_index) :=
    List.Pairwise.sublist (List.filter_sublist _) hsorted
  have hsorted_old :
      ((st.chunks.filter (fun ch => !ch.is_tokenized)).take
          ((st.chunks.filter (fun ch => !ch.is_tokenized)).length - MAXB + 2)).Pairwise
        (fun a b => a.end_index ≤ b.end_index) :=
    List.Pairwise.sublist (List.take_sublist _ _) hsorted_active
  have hlen : ((st.chunks.filter (fun ch => !ch.is_tokenized)).take
      ((st.chunks.filter (fun ch => !ch.is_tokenized)).length - MAXB + 2)).length
      = (st.chunks.filter (fun ch => !ch.is_tokenized)).length - MAXB + 2 := by
    rw [List.length_take]
    omega
  have hne : (st.chunks.filter (fun ch => !ch.is_tokenized)).take
      ((st.chunks.filter (fun ch => !ch.is_tokenized)).length - MAXB + 2) ≠ [] := by
    intro h
    have h0 : ((st.chunks.filter (fun ch => !ch.is_tokenized)).take
        ((st.chunks.filter (fun ch => !ch.is_tokenized)).length - MAXB + 2)).length = 0 := by
      rw [h]; rfl
    rw [hlen] at h0
    omega
  unfold compress_old_chunks_to_deep_memory
  rw [if_neg (by omega)]
  rw [dif_neg hne]
  cases hdeep : st.deep with
  | some d0 =>
    dsimp only
    refine ⟨_, rfl, hlen, by simp [hlen], ?_, ?_, ?_⟩
    · intro ch hch
      exact le_getLast_of_sorted _ hsorted_old hne ch hch
    · exact ⟨_, List.getLast_mem hne, rfl⟩
    · exact filter_markFirstActive _ _
  | none =>
    dsimp only
    refine ⟨_, rfl, hlen, by simp [hlen], ?_, ?_, ?_⟩
    · intro ch hch
      exact le_getLast_of_sorted _ hsorted_old hne ch hch
    · exact ⟨_, List.getLast_mem hne, rfl⟩
    · exact filter_markFirstActive _ _

/-- Witness for `compress_old_chunks_spec`: `MAXB = 6` with 8 Active chunks —
the 4 oldest are compacted, `chunks_merged` goes from 2 to 6, and
`last_merged_end_index` becomes 4. -/
theorem compress_old_chunks_spec_witness :
    (∃ d : DeepMemory,
      (compress_old_chunks_to_deep_memory constComp 6 50 stC5).deep = some d ∧
      ((stC5.chunks.filter (fun ch => !ch.is_tokenized)).take
          ((stC5.chunks.filter (fun ch => !ch.is_tokenized)).length - 6 + 2)).length
        = (stC5.chunks.filter (fun ch => !ch.is_tokenized)).length - 6 + 2 ∧
      d.chunks_merged
        = (match stC5.deep with | some d0 => d0.chunks_merged | none => 0)
          + ((stC5.chunks.filter (fun ch => !ch.is_tokenized)).length - 6 + 2) ∧
      (∀ ch ∈ (stC5.chunks.filter (fun ch => !ch.is_tokenized)).take
          ((stC5.chunks.filter (fun ch => !ch.is_tokenized)).length - 6 + 2),
        ch.end_index ≤ d.last_merged_end_index) ∧
      (∃ ch ∈ (stC5.chunks.filter (fun ch => !ch.is_tokenized)).take
          ((stC5.chunks.filter (fun ch => !ch.is_tokenized)).length - 6 + 2),
        ch.end_index = d.last_merged_end_index) ∧
      ((compress_old_chunks_to_deep_memory constComp 6 50 stC5).chunks.filter
          (fun ch => !ch.is_tokenized))
        = (stC5.chunks.filter (fun ch => !ch.is_tokenized)).drop
            ((stC5.chunks.filter (fun ch => !ch.is_tokenized)).length - 6 + 2)) ∧
    (compress_old_chunks_to_deep_memory constComp 6 50 stC5).deep
      = some { summary := lit "deep", token_count := 7, chunks_merged := 6,
               last_merged_end_index := 4 } :=
  ⟨compress_old_chunks_spec constComp 6 50 stC5 (by decide) (by decide)
      (by decide), by decide⟩

/-! ## Raw-turn summarization paths (C4) -/

/-- **C4 (confirmed)** — once the untokenized entries reach the threshold,
only they are summarized (with the newest chunk's summary as context).  If the
newest chunk exists with `token_count / BLOCK < 0.9` (modelled exactly as
`10·token_count < 9·BLOCK`), a nonempty summary and references, and the old
token count plus the new summary's tokens fits the block size, the new summary
is appended to the chunk in place, `end_index` is extended to the last new
entry and the references are extended with the new entry ids; if the combined
count overflows, or utilization is not below 0.9, a new chunk spanning only
the new entries is created; in every branch all untokenized raw turns are
marked tokenized. -/
theorem check_and_tokenize_spec
    (S : List (List Char) → Option (List Char) → List Char × Nat)
    (T B : Nat) (st : GameState)
    (hu : st.history.filter (fun h => !h.is_tokenized) ≠ [])
    (hth : ((st.history.filter (fun h => !h.is_tokenized)).map
        (fun h => h.token_count)).sum ≥ T) :
    (check_and_tokenize_core S T B st).history
      = st.history.map (fun e =>
          if e.is_tokenized then e else { e with is_tokenized := true }) ∧
    (∀ lt, st.chunks.getLast? = some lt →
      lt.token_count ≠ 0 → 10 * lt.token_count < 9 * B →
      lt.summary ≠ [] → lt.history_references ≠ [] →
      lt.token_count + (S ((st.history.filter (fun h => !h.is_tokenized)).map
          (fun h => h.text)) (some lt.summary)).2 ≤ B →
      (check_and_tokenize_core S T B st).chunks
        = st.chunks.dropLast ++
          [{ lt with
             summary := lt.summary ++ '\n' ::
               (S ((st.history.filter (fun h => !h.is_tokenized)).map
                 (fun h => h.text)) (some lt.summary)).1,
             token_count := lt.token_count +
               (S ((st.history.filter (fun h => !h.is_tokenized)).map
                 (fun h => h.text)) (some lt.summary)).2,
             end_index := ((st.history.filter (fun h => !h.is_tokenized)).getLast hu).entry_index,
             history_references := lt.history_references ++
               (st.history.filter (fun h => !h.is_tokenized)).map (fun h => h.id) }]) ∧
    (∀ lt, st.chunks.getLast? = some lt →
      lt.token_count ≠ 0 → 10 * lt.token_count < 9 * B →
      lt.summary ≠ [] →
      lt.token_count + (S ((st.history.filter (fun h => !h.is_tokenized)).map
          (fun h => h.text)) (some lt.summary)).2 > B →
      (check_and_tokenize_core S T B st).chunks
        = st.chunks ++
          [{ start_index := ((st.history.filter (fun h => !h.is_tokenized)).head hu).entry_index,
             end_index := ((st.history.filter (fun h => !h.is_tokenized)).getLast hu).entry_index,
             summary := (S ((st.history.filter (fun h => !h.is_tokenized)).map
               (fun h => h.text)) (some lt.summary)).1,
             token_count := (S ((st.history.filter (fun h => !h.is_tokenized)).map
               (fun h => h.text)) (some lt.summary)).2,
             history_references := (st.history.filter (fun h => !h.is_tokenized)).map
               (fun h => h.id),
             is_tokenized := false }]) ∧
    (∀ lt, st.chunks.getLast? = some lt →
      ¬(lt.token_count ≠ 0 ∧ 10 * lt.token_count < 9 * B) →
      (check_and_tokenize_core S T B st).chunks
        = st.chunks ++
          [{ start_index := ((st.history.filter (fun h => !h.is_tokenized)).head hu).entry_index,
             end_index := ((st.history.filter (fun h => !h.is_tokenized)).getLast hu).entry_index,
             summary := (S ((st.history.filter (fun h => !h.is_tokenized)).map
               (fun h => h.text)) (some lt.summary)).1,
             token_count := (S ((st.history.filter (fun h => !h.is_tokenized)).map
               (fun h => h.text)) (some lt.summary)).2,
             history_references := (st.history.filter (fun h => !h.is_tokenized)).map
               (fun h => h.id),
             is_tokenized := false }]) := by
  have hhist : ¬(st.history = []) := by
    intro h
    apply hu
    rw [h]
    rfl
  unfold check_and_tokenize_core
  rw [if_neg hhist, dif_neg hu, if_pos hth]
  dsimp only
  refine ⟨?_, ?_, ?_, ?_⟩
  · cases hlt : st.chunks.getLast? with
    | none => rfl
    | some lt =>
      dsimp only
      by_cases hm : (lt.token_count ≠ 0 &&
          decide (10 * lt.token_count < 9 * B)) = true
      · rw [if_pos hm]
        by_cases hs : lt.summary ≠ []
        · rw [if_pos hs]
          by_cases hc : lt.token_count +
              (S ((st.history.filter (fun h => !h.is_tokenized)).map
                (fun h => h.text)) ((some lt).map (fun x => x.summary))).2 > B
          · rw [if_pos (by simpa [hs] using hc)]
          · rw [if_neg (by simpa [hs] using hc)]
        · rw [if_neg hs]
          by_cases hc : (S ((st.history.filter (fun h => !h.is_tokenized)).map
                (fun h => h.text)) ((some lt).map (fun x => x.summary))).2 > B
          · rw [if_pos (by simpa [hs] using hc)]
          · rw [if_neg (by simpa [hs] using hc)]
      · rw [if_neg hm]
  · intro lt hlt htc hutil hs hrefs hfit
    rw [hlt]
    dsimp only
    rw [if_pos (by simp [htc, hutil])]
    rw [if_pos hs]
    rw [if_neg (by simpa [hs] using (by omega : ¬(lt.token_count +
      (S ((st.history.filter (fun h => !h.is_tokenized)).map
        (fun h => h.text)) (some lt.summary)).2 > B)))]
    dsimp only
    rw [if_pos hrefs]
    simp [hs]
  · intro lt hlt htc hutil hs hover
    rw [hlt]
    dsimp only
    rw [if_pos (by simp [htc, hutil])]
    rw [if_pos hs]
    rw [if_pos (by simpa [hs] using hover)]
    simp
  · intro lt hlt hnm
    rw [hlt]
    dsimp only
    rw [if_neg (by
      intro hmm
      apply hnm
      rw [Bool.and_eq_true] at hmm
      exact ⟨by simpa using hmm.1, by simpa using hmm.2⟩)]
    simp

/-- Witness for `check_and_tokenize_spec`: the merge path at the concrete
state — the 140-token chunk (utilization 0.7 against block size 200) absorbs
the new 5-token summary in place, extending `end_index` to 1 and the
references with the new entry ids, and both raw turns are marked. -/
theorem check_and_tokenize_spec_witness :
    (check_and_tokenize_core constS 10 200 stC4).history
      = stC4.history.map (fun e =>
          if e.is_tokenized then e else { e with is_tokenized := true }) ∧
    (check_and_tokenize_core constS 10 200 stC4).chunks
      = stC4.chunks.dropLast ++
        [{ start_index := 0, end_index := 1,
           summary := lit "old" ++ '\n' :: lit "sum",
           token_count := 145, history_references := [9, 1, 2],
           is_tokenized := false }] :=
  ⟨(check_and_tokenize_spec constS 10 200 stC4 (by decide) (by decide)).1,
   by
     have h := (check_and_tokenize_spec constS 10 200 stC4
         (by decide) (by decide)).2.1
       { start_index := 0, end_index := 0, summary := lit "old",
         token_count := 140, history_references := [9], is_tokenized := false }
       (by decide) (by decide) (by decide) (by decide) (by decide) (by decide)
     rw [h]
     decide⟩
